import Mathlib

/-!
Verification development for astor's `code_gen.py` (the source-code
generator that converts a Python AST back into source text).

The definitions below are a shallow embedding of `src/astor/code_gen.py`.
Python's mutable generator object becomes an explicit `GenState` that is
threaded through the visitors; the mutable `_pp` attribute that
`set_precedence` stores on AST nodes becomes the `pp : Option Nat` field
of every embedded node, and each visitor returns the (possibly
re-annotated) node alongside the new state, which models the in-place
mutation of the caller-visible tree.  Each buffer operation is also
recorded in a journal (`BufEvent`) so that claims about how the output
buffer is edited can be stated.

The embedded node kinds are: Name, numeric Constant (including the
infinity/NaN/complex special cases), string Constant, JoinedStr
(f-strings) with Str-shaped, Constant-shaped and FormattedValue
segments, Tuple, Set, BinOp, Call (with keywords), GeneratorExp (one
comprehension, no `ifs`, not async), the expression statement, and
Module.  `add_line_information` is fixed to its default `False`, so the
line-comment branch of `newline` (code_gen.py lines 219-221) is dead and
is not embedded.
-/

/-- One primitive edit of the output buffer (`self.result`).  `append`
is `result.append(...)` (used by `write` and by `Delimit.__exit__` when
the scope is kept); `clearOpen` is `result[start] = ''` in
`Delimit.__exit__` (code_gen.py line 137); `deleteFrom` is
`del result[index:]` in `_handle_string_constant` (line 626). -/
inductive BufEvent
| append (s : String)
| clearOpen (idx : Nat)
| deleteFrom (idx : Nat)
deriving DecidableEq

namespace Prec

/-!
Modelled from the spec: the operator table (`op_util.py`, a file of
this repository that is not under `src/`).  Section 6 of the spec makes
it a Precedence Oracle returning total-order ranks where higher binds
tighter; section 4.2 fixes the relative order used here: `PowRHS` is a
special right-hand-side-of-power rank lower than `Pow`; `Comma` is a
low rank for comma-separated contexts; `call_one_arg` is the distinct
rank given to the single argument of a call; numeric constants get a
near-maximal rank; `highest` is the default annotation used by the
source when none was propagated (`_pp=Precedence.highest`,
code_gen.py line 192) and is above every operator rank.  The concrete
numbers only realise this order.
-/

/-- Modelled from the spec: operator-table rank (op_util.py, not under src/). -/
def GeneratorExp : Nat := 1

def Assign : Nat := 3

def Expr : Nat := 3

def Tuple : Nat := 15

def FormattedValue : Nat := 15

def comprehension_target : Nat := 15

def Comma : Nat := 17

def call_one_arg : Nat := 21

def Add : Nat := 41

def Sub : Nat := 41

def Mult : Nat := 43

def PowRHS : Nat := 47

def Pow : Nat := 49

def comprehension : Nat := 17

def Constant : Nat := 53

def highest : Nat := 55

end Prec

/-- Binary operator kinds embedded (a representative subset of the
operator table consumed by `visit_BinOp`). -/
inductive BinOpKind
| add
| sub
| mult
| pow
deriving DecidableEq

/-- Modelled from the spec: `get_op_precedence` of `op_util.py` (not
under src/) restricted to the embedded binary operators. -/
def opPrec : BinOpKind → Nat
| BinOpKind.add => Prec.Add
| BinOpKind.sub => Prec.Sub
| BinOpKind.mult => Prec.Mult
| BinOpKind.pow => Prec.Pow

/-- Modelled from the spec: `get_op_symbol` of `op_util.py` (not under
src/), the Precedence Oracle's display symbol. -/
def opSym : BinOpKind → String
| BinOpKind.add => "+"
| BinOpKind.sub => "-"
| BinOpKind.mult => "*"
| BinOpKind.pow => "**"

/-- A real float component of a numeric constant, as far as
`_handle_numeric_constant` inspects it: `math.isinf`, `math.isnan`, the
sign, the `== 0` test, and otherwise `repr(p)`.  A finite component
carries its Python `repr` and its zero test. -/
inductive FloatPart
| fin (r : String) (isZero : Bool)
| inf
| neginf
| nan
deriving DecidableEq

/-- A numeric constant value: real, or complex with real and imaginary
components (`x.real` / `x.imag`, code_gen.py lines 676-685). -/
inductive PyNum
| real (p : FloatPart)
| cplx (re im : FloatPart)
deriving DecidableEq

/-- The inner `part` helper of `_handle_numeric_constant`
(code_gen.py lines 660-674): infinity becomes `1e1000`, negative
infinity `-1e1000`, NaN `(1e1000-1e1000)`, with the `j` suffix when the
component is imaginary, and a finite component is its repr. -/
def partFmt (p : FloatPart) (imaginary : Bool) : String :=
  let s := if imaginary then "j" else ""
  match p with
  | FloatPart.inf => "1e1000" ++ s
  | FloatPart.neginf => "-1e1000" ++ s
  | FloatPart.nan => "(1e1000" ++ s ++ "-1e1000" ++ s ++ ")"
  | FloatPart.fin r _ => r ++ s

def FloatPart.zero : FloatPart → Bool
| FloatPart.fin _ z => z
| _ => false

/-- The text written by `_handle_numeric_constant`
(code_gen.py lines 676-688): the complex composition drops a zero real
component, renders a zero imaginary component as `(real+0j)`, and joins
two nonzero components with `+` unless the imaginary text already
starts with `-`. -/
def numericText : PyNum → String
| PyNum.real p => partFmt p false
| PyNum.cplx re im =>
    let realS := partFmt re false
    let imagS := partFmt im true
    if re.zero then imagS
    else if im.zero then "(" ++ realS ++ "+0j)"
    else "(" ++ realS ++ (if imagS.startsWith "-" then "" else "+") ++ imagS ++ ")"

mutual

/-- An embedded AST node: the transient `_pp` annotation written by
`set_precedence` (code_gen.py lines 76-92), plus the node's kind. -/
inductive PyExpr
| mk (pp : Option Nat) (kind : EKind)
deriving DecidableEq

/-- The expression node kinds embedded from code_gen.py. -/
inductive EKind
| name (id : String)
| num (n : PyNum)
| strE (s : String)
| joined (segs : SegList)
| tuple (elts : PyExprList)
| setE (elts : PyExprList)
| binop (op : BinOpKind) (l r : PyExpr)
| call (f : PyExpr) (args : PyExprList) (kws : KwList)
| genexp (elt : PyExpr) (target : PyExpr) (iter : PyExpr)
deriving DecidableEq

inductive PyExprList
| nil
| cons (e : PyExpr) (es : PyExprList)
deriving DecidableEq

/-- One value of a JoinedStr node: a literal-text segment carried by an
`ast.Str`-shaped node, a literal-text segment carried by an
`ast.Constant`-shaped node (the two distinct isinstance branches of
code_gen.py lines 598-615), or a FormattedValue with an optional
`expr_text` override, an optional conversion character (`-1`, meaning
no conversion, is modelled as `none`), and an optional format_spec
(`fmtValSpec` when present). -/
inductive Seg
| strSeg (s : String)
| constSeg (s : String)
| fmtVal (exprText : Option String) (v : PyExpr) (conv : Option Char)
| fmtValSpec (exprText : Option String) (v : PyExpr) (conv : Option Char) (spec : SegList)
deriving DecidableEq

inductive SegList
| nil
| cons (s : Seg) (rest : SegList)
deriving DecidableEq

/-- A Call node's keyword arguments; `arg = none` is dictionary
unpacking (code_gen.py lines 535-539). -/
inductive KwList
| nil
| cons (arg : Option String) (v : PyExpr) (rest : KwList)
deriving DecidableEq

end

/-- `set_precedence` on a single node (code_gen.py line 83:
`node._pp = value`). -/
def setPP : PyExpr → Nat → PyExpr
| PyExpr.mk _ k, v => PyExpr.mk (some v) k

/-- `get__pp(node)`: the annotation with the `Precedence.highest`
default (code_gen.py lines 191-206). -/
def getPP : Option Nat → Nat
| pp => pp.getD Prec.highest

def kindOf : PyExpr → EKind
| PyExpr.mk _ k => k

def rootPP : PyExpr → Option Nat
| PyExpr.mk pp _ => pp

/-- The generator state: the `SourceGenerator` fields of
code_gen.py lines 157-164 (`result`, `new_lines`, `indentation`,
`colinfo`, `indent_with`, `using_unicode_literals`), plus the journal
of buffer edits. -/
structure GenState where
  result : List String
  newLines : Nat
  indentation : Nat
  colinfo : Nat × Nat
  indentWith : String
  usingUnicode : Bool
  journal : List BufEvent
deriving DecidableEq

/-- `result.append(item)`, recorded in the journal. -/
def appendFrag (st : GenState) (s : String) : GenState :=
  { st with result := st.result ++ [s], journal := st.journal ++ [BufEvent.append s] }

/-- `result[idx] = ''` (`Delimit.__exit__`, code_gen.py line 137),
recorded in the journal. -/
def clearSlot (st : GenState) (idx : Nat) : GenState :=
  { st with result := st.result.set idx "", journal := st.journal ++ [BufEvent.clearOpen idx] }

/-- `'\n' * k`. -/
def nlRun (k : Nat) : String := String.mk (List.replicate k '\n')

/-- `''.join`, used both for the scratch splice of
`_handle_string_constant` and as the model of the external line
formatter. -/
def strJoin : List String → String
| [] => ""
| s :: t => s ++ strJoin t

/-- `self.indent_with * self.indentation`. -/
def indentText (st : GenState) : String :=
  strJoin (List.replicate st.indentation st.indentWith)

/-- The `write` closure for one literal item (code_gen.py lines
171-187): flush pending newlines followed by the indentation, then
append the item unless it is falsy.  `colinfo` records the index of the
fragment following the newline run and offset 0 (line 183). -/
def writeStr (st : GenState) (item : String) : GenState :=
  let st :=
    if st.newLines ≠ 0 then
      let st1 := appendFrag st (nlRun st.newLines)
      let st2 := { st1 with colinfo := (st1.result.length, 0) }
      let st3 := appendFrag st2 (indentText st2)
      { st3 with newLines := 0 }
    else st
  if item = "" then st else appendFrag st item

/-- `self.newline(extra=...)` with `node=None` or with
`add_line_information` left at its default `False`
(code_gen.py lines 217-218): the pending count is the maximum. -/
def newlineReq (st : GenState) (extra : Nat) : GenState :=
  { st with newLines := max st.newLines (1 + extra) }

/-- Modelled from the spec: the external String Formatter
(`string_repr.pretty_string`, a repository file not under src/; spec
section 6: quote selection and escaping given the raw text, the
embedding level, the current line and the unicode-literals flag).
Modelled as a single-quoted literal with backslash, quote and newline
escaped. -/
def escChar (c : Char) : String :=
  if c = '\\' then "\\\\"
  else if c = '\'' then "\\'"
  else if c = '\n' then "\\n"
  else String.mk [c]

def escapeStr (s : String) : String := strJoin (s.data.map escChar)

def prettyString (raw : String) (_embedded : Nat) (_currentLine : String)
    (_uniLit : Bool) : String :=
  "'" ++ escapeStr raw ++ "'"

/-- Modelled from the spec: the external Line Formatter
(`source_repr.pretty_source`, a repository file not under src/; spec
section 6: a final pass over the ordered fragments whose concatenation
is the generated text).  Modelled as the concatenation. -/
def prettySource (frags : List String) : String := strJoin frags

/-- `str.replace(c, c+c)` for a single character, used for the brace
doubling of code_gen.py line 600. -/
def doubleChar (c : Char) (s : String) : String :=
  String.mk (s.data.foldr (fun x acc => if x = c then x :: x :: acc else x :: acc) [])

/-- `value.s.replace('{', '{{').replace('}', '}}')`
(code_gen.py line 600). -/
def doubleBraces (s : String) : String :=
  doubleChar '\x7d' (doubleChar '\x7b' s)

/-- `mystr.rfind('\n') + 1` (code_gen.py line 645): one past the last
newline of the string, 0 if it has none. -/
def lfOf (s : String) : Nat :=
  (s.data.foldl (fun (acc : Nat × Nat) c =>
    (acc.1 + 1, if c = '\n' then acc.1 + 1 else acc.2)) (0, 0)).2

/-- The current-line reconstruction of `_handle_string_constant`
(code_gen.py lines 583-587): the fragments from the recorded
line-start index, with the recorded offset dropped from the first. -/
def currentLineOf (st : GenState) : String :=
  let resIndex := st.colinfo.1
  let strIndex := st.colinfo.2
  let frags := st.result.drop resIndex
  let frags :=
    if strIndex ≠ 0 then
      match frags with
      | [] => []
      | h :: t => (h.drop strIndex) :: t
    else frags
  strJoin frags

/-- The `embedded` level of `_handle_string_constant`
(code_gen.py lines 570-572). -/
def embeddedLevel (pp : Option Nat) : Nat :=
  (if getPP pp > Prec.Expr then 1 else 0) + (if getPP pp ≥ Prec.Assign then 1 else 0)

/-- `_handle_string_constant` for a plain (non-joined) string constant
(code_gen.py lines 566-647, the `else` arm of `is_joined`): flush,
reconstruct the current line, format through the external string
formatter, write, and update `colinfo` if the written text contains a
newline.  The `Constant.kind` prefix (lines 639-641) is not embedded
(the embedded string nodes carry no `kind` field, the `getattr`
default). -/
def handleStr (pp : Option Nat) (value : String) (st : GenState) : GenState :=
  let embedded := embeddedLevel pp
  let st1 := writeStr st ""
  let cl := currentLineOf st1
  let mystr := prettyString value embedded cl st1.usingUnicode
  let st2 := writeStr st1 mystr
  let lf := lfOf mystr
  if lf ≠ 0 then { st2 with colinfo := (st2.result.length - 1, lf) } else st2

/-- `numargs` and the precedence given to the positional arguments of a
call (code_gen.py lines 524-527): `Comma` when there is more than one
argument in total, `call_one_arg` otherwise. -/
def callArgPrec (numargs : Nat) : Nat :=
  if numargs > 1 then Prec.Comma else Prec.call_one_arg

/-- The precedence `visit_BinOp` propagates to the left child
(code_gen.py line 747). -/
def binOpLeftPrec (op : BinOpKind) : Nat :=
  if op = BinOpKind.pow then Prec.Pow + 1 else opPrec op

/-- The precedence `visit_BinOp` propagates to the right child
(code_gen.py line 748). -/
def binOpRightPrec (op : BinOpKind) : Nat :=
  if op = BinOpKind.pow then Prec.PowRHS else opPrec op + 1

def eLen : PyExprList → Nat
| PyExprList.nil => 0
| PyExprList.cons _ es => eLen es + 1

def eIsNil : PyExprList → Bool
| PyExprList.nil => true
| PyExprList.cons _ _ => false

def kLen : KwList → Nat
| KwList.nil => 0
| KwList.cons _ _ rest => kLen rest + 1

mutual

/-- The dispatcher on an annotated node: `set_precedence(v, node)`
followed by `self.visit(node)` — the child is visited carrying the
annotation just written onto it. -/
def visitWith : Nat → PyExpr → GenState → GenState × PyExpr
| v, PyExpr.mk _ k, st => visitKind (some v) k st

/-- `self.visit(node)` without a preceding `set_precedence` (used for
`node.func` in `visit_Call` and for the top-level node): the node is
visited with whatever annotation it already carries. -/
def visitPlain : PyExpr → GenState → GenState × PyExpr
| PyExpr.mk pp k, st => visitKind pp k st

/-- The kind-specific rendering rules of `SourceGenerator` for the
embedded expression kinds.  Every `Delimit(self, node, ...)` scope is
inlined: write the opening delimiter, record `index = len(result)`,
run the body, then either clear slot `index - 1` (discard) or append
the closing delimiter (code_gen.py lines 105-139). -/
def visitKind : Option Nat → EKind → GenState → GenState × PyExpr
| pp, EKind.name id, st =>
    -- visit_Name (code_gen.py lines 545-546)
    (writeStr st id, PyExpr.mk pp (EKind.name id))
| pp, EKind.num n, st =>
    -- visit_Constant, numeric branch (lines 553-555): with self.delimit(node)
    let st1 := writeStr st "("
    let idx := st1.result.length
    let st2 := writeStr st1 (numericText n)
    (if Prec.Constant ≥ getPP pp then clearSlot st2 (idx - 1) else appendFrag st2 ")",
     PyExpr.mk pp (EKind.num n))
| pp, EKind.strE s, st =>
    -- visit_Constant, str branch (lines 556-557)
    (handleStr pp s st, PyExpr.mk pp (EKind.strE s))
| pp, EKind.joined segs, st =>
    -- visit_JoinedStr (lines 563-564), i.e. `_handle_string_constant`
    -- with `is_joined=True` (lines 566-647): flush, record the scratch
    -- start index, render the segments into the buffer, flush, join the
    -- scratch fragments into the template text, splice them out
    -- (`del result[index:]`), restore `colinfo`, then write `'f'` plus
    -- the externally formatted template
    let embedded := embeddedLevel pp
    let st1 := writeStr st ""
    let cl := currentLineOf st1
    let savedColinfo := st1.colinfo
    let index := st1.result.length
    let q := visitSegs segs st1
    let st3 := writeStr q.1 ""
    let mystr := strJoin (st3.result.drop index)
    let st4 := { st3 with result := st3.result.take index,
                          journal := st3.journal ++ [BufEvent.deleteFrom index],
                          colinfo := savedColinfo }
    let mystr2 := "f" ++ prettyString mystr embedded cl false
    let st5 := writeStr st4 mystr2
    let lf := lfOf mystr2
    (if lf ≠ 0 then { st5 with colinfo := (st5.result.length - 1, lf) } else st5,
     PyExpr.mk pp (EKind.joined q.2))
| pp, EKind.tuple elts, st =>
    -- visit_Tuple (lines 711-718)
    let st1 := writeStr st "("
    let idx := st1.result.length
    let q := commaSepList elts true st1
    let st2 := writeStr q.1 (if eLen elts = 1 then "," else "")
    (if (decide (Prec.Tuple ≥ getPP pp) && !(eIsNil elts)) = true
       then clearSlot st2 (idx - 1) else appendFrag st2 ")",
     PyExpr.mk pp (EKind.tuple q.2))
| pp, EKind.setE elts, st =>
    -- visit_Set (lines 724-732)
    match elts with
    | PyExprList.nil =>
        (writeStr st "\x7b1\x7d.__class__()", PyExpr.mk pp (EKind.setE PyExprList.nil))
    | PyExprList.cons _ _ =>
        let st1 := writeStr st "\x7b"
        let q := commaSepList elts true st1
        let st2 := writeStr q.1 ""
        (appendFrag st2 "\x7d", PyExpr.mk pp (EKind.setE q.2))
| pp, EKind.binop op l r, st =>
    -- visit_BinOp (lines 742-749)
    let st1 := writeStr st "("
    let idx := st1.result.length
    let lq := visitWith (binOpLeftPrec op) l st1
    let st2 := writeStr lq.1 (" " ++ opSym op ++ " ")
    let rq := visitWith (binOpRightPrec op) r st2
    (if opPrec op ≥ getPP pp then clearSlot rq.1 (idx - 1) else appendFrag rq.1 ")",
     PyExpr.mk pp (EKind.binop op lq.2 rq.2))
| pp, EKind.call f args kws, st =>
    -- visit_Call (lines 510-543); starargs and kwargs are None on
    -- Python 3.5+ (the getattr defaults), contributing 0 to numargs
    let numargs := eLen args + kLen kws
    let fq := visitPlain f st
    let st1 := writeStr fq.1 "("
    let aq := callArgsLoop (callArgPrec numargs) args false st1
    let kq := callKwsLoop kws aq.2.2 aq.1
    (writeStr kq.1 ")", PyExpr.mk pp (EKind.call fq.2 aq.2.1 kq.2.1))
| pp, EKind.genexp elt target iter, st =>
    -- visit_GeneratorExp (lines 847-852) with one comprehension
    -- (visit_comprehension, lines 894-900; no ifs, not async)
    let st1 := writeStr st "("
    let idx := st1.result.length
    let eq' := visitWith Prec.Comma elt st1
    let st2 := writeStr eq'.1 " for "
    let tq := visitWith Prec.comprehension_target target st2
    let st3 := writeStr tq.1 " in "
    let iq := visitWith Prec.comprehension iter st3
    (if getPP pp = Prec.call_one_arg ∨ Prec.GeneratorExp ≥ getPP pp
       then clearSlot iq.1 (idx - 1) else appendFrag iq.1 ")",
     PyExpr.mk pp (EKind.genexp eq'.2 tq.2 iq.2))

/-- The loop of `comma_list` (code_gen.py lines 279-282): each element
is annotated with `Precedence.Comma` and preceded by `', '` except the
first.  The caller writes the trailing comma. -/
def commaSepList : PyExprList → Bool → GenState → GenState × PyExprList
| PyExprList.nil, _, st => (st, PyExprList.nil)
| PyExprList.cons e es, first, st =>
    let st0 := writeStr st (if first then "" else ", ")
    let p := visitWith Prec.Comma e st0
    let q := commaSepList es false p.1
    (q.1, PyExprList.cons p.2 q.2)

/-- The positional-argument loop of `visit_Call` (lines 531-532) with
the `want_comma` flag threaded through. -/
def callArgsLoop : Nat → PyExprList → Bool → GenState → GenState × (PyExprList × Bool)
| _, PyExprList.nil, want, st => (st, (PyExprList.nil, want))
| p, PyExprList.cons e es, want, st =>
    let st0 := if want then writeStr st ", " else st
    let eq' := visitWith p e st0
    let q := callArgsLoop p es true eq'.1
    (q.1, (PyExprList.cons eq'.2 q.2.1, q.2.2))

/-- The keyword-argument loop of `visit_Call` (lines 534-539): keyword
values are annotated with `Precedence.Comma`; a missing or empty name
renders `**`. -/
def callKwsLoop : KwList → Bool → GenState → GenState × (KwList × Bool)
| KwList.nil, want, st => (st, (KwList.nil, want))
| KwList.cons argName v rest, want, st =>
    let st0 := if want then writeStr st ", " else st
    let a := argName.getD ""
    let st1 := writeStr st0 a
    let st2 := writeStr st1 (if a = "" then "**" else "=")
    let vq := visitWith Prec.Comma v st2
    let q := callKwsLoop rest true vq.1
    (q.1, (KwList.cons argName vq.2 q.2.1, q.2.2))

/-- The `recurse` helper of `_handle_string_constant` for joined
strings (code_gen.py lines 596-618): Str-shaped literal segments have
their braces doubled; Constant-shaped literal segments are written
verbatim; a FormattedValue is wrapped in a non-discarding `'{}'`
delimiter scope, rendering `expr_text` when present and otherwise its
annotated value, then the conversion and the recursively rendered
format_spec. -/
def visitSegs : SegList → GenState → GenState × SegList
| SegList.nil, st => (st, SegList.nil)
| SegList.cons s rest, st =>
    let p := visitSeg s st
    let q := visitSegs rest p.1
    (q.1, SegList.cons p.2 q.2)

def visitSeg : Seg → GenState → GenState × Seg
| Seg.strSeg s, st => (writeStr st (doubleBraces s), Seg.strSeg s)
| Seg.constSeg s, st => (writeStr st s, Seg.constSeg s)
| Seg.fmtVal exprText v conv, st =>
    let st1 := writeStr st "\x7b"
    let p :=
      match exprText with
      | some t => (writeStr st1 t, v)
      | none => visitWith Prec.FormattedValue v st1
    let st2 :=
      match conv with
      | some c => writeStr p.1 ("!" ++ String.mk [c])
      | none => p.1
    (appendFrag st2 "\x7d", Seg.fmtVal exprText p.2 conv)
| Seg.fmtValSpec exprText v conv spec, st =>
    let st1 := writeStr st "\x7b"
    let p :=
      match exprText with
      | some t => (writeStr st1 t, v)
      | none => visitWith Prec.FormattedValue v st1
    let st2 :=
      match conv with
      | some c => writeStr p.1 ("!" ++ String.mk [c])
      | none => p.1
    let st3 := writeStr st2 ":"
    let sq := visitSegs spec st3
    (appendFrag sq.1 "\x7d", Seg.fmtValSpec exprText p.2 conv sq.2)

end

/-- The embedded statement kind: the expression statement
(`visit_Expr`, code_gen.py lines 321-324). -/
inductive PyStmt
| exprStmt (e : PyExpr)
deriving DecidableEq

/-- `visit_Expr`: `set_precedence(node, node.value)` (the statement
node's rank is `Precedence.Expr`), `self.statement(node)` (which is
`newline(node)` plus an empty write), then the value child is visited
through `generic_visit` (`node_util.py`, not under src/; spec section
4.1: the fallback visits the child fields in order — here the single
`value` child). -/
def visitStmt : PyStmt → GenState → GenState × PyStmt
| PyStmt.exprStmt e, st =>
    let st1 := newlineReq st 0
    let p := visitWith Prec.Expr e st1
    (p.1, PyStmt.exprStmt p.2)

def visitStmts : List PyStmt → GenState → GenState × List PyStmt
| [], st => (st, [])
| s :: ss, st =>
    let p := visitStmt s st
    let q := visitStmts ss p.1
    (q.1, p.2 :: q.2)

/-- A top-level input tree: a Module (`visit_Module`, code_gen.py
lines 876-877, which writes each statement of the body) or a bare
expression node. -/
inductive PyNode
| module (stmts : List PyStmt)
| expr (e : PyExpr)
deriving DecidableEq

def visitNode : PyNode → GenState → GenState × PyNode
| PyNode.module ss, st =>
    let q := visitStmts ss st
    (q.1, PyNode.module q.2)
| PyNode.expr e, st =>
    let q := visitPlain e st
    (q.1, PyNode.expr q.2)

/-- The fresh generator state built by `to_source`
(code_gen.py lines 60-62 and 157-164) with the default configuration
(`indent_with=' '*4`, `add_line_information=False`). -/
def initState : GenState :=
  { result := [], newLines := 0, indentation := 0, colinfo := (0, 0),
    indentWith := "    ", usingUnicode := false, journal := [] }

/-- The leading-blank strip of `to_source` (code_gen.py lines 64-65):
`if set(generator.result[0]) == set('\n'): generator.result[0] = ''`,
i.e. the first fragment is cleared exactly when it is a nonempty string
consisting of newlines only. -/
def stripLeadingBlank : List String → List String
| [] => []
| h :: t => if h ≠ "" ∧ h.data.all (fun c => c = '\n') then "" :: t else h :: t

/-- The finalisation of `to_source` (code_gen.py lines 63-66):
append `'\n'`, clear the first fragment when it is a nonempty run of
newlines, and hand the fragments to the external line formatter. -/
def finalize (res : List String) : String :=
  prettySource (stripLeadingBlank (res ++ ["\n"]))

/-- `to_source(node)` with the default configuration. -/
def toSource (node : PyNode) : String :=
  finalize ((visitNode node initState).1.result)

/-- The tree as left behind by one top-level generation: the `_pp`
annotations written by `set_precedence` persist on the nodes. -/
def genTree (node : PyNode) : PyNode :=
  (visitNode node initState).2

/-- The journal of buffer edits performed by one top-level
generation's visit phase. -/
def genJournal (node : PyNode) : List BufEvent :=
  (visitNode node initState).1.journal

section WellFormed

/-- Tests that a token-valued string has no newline inside. -/
def noNLb (s : String) : Bool := s.data.all (fun c => c ≠ '\n')

def wfPart : FloatPart → Bool
| FloatPart.fin r _ => r ≠ "" && noNLb r
| _ => true

def wfNum : PyNum → Bool
| PyNum.real p => wfPart p
| PyNum.cplx re im => wfPart re && wfPart im

mutual

/-- Well-formedness of an embedded tree: identifier and repr tokens
are nonempty and newline-free (the generator trusts tree
well-formedness; spec section 1). -/
def wfE : PyExpr → Bool
| PyExpr.mk _ k => wfK k

def wfK : EKind → Bool
| EKind.name id => id ≠ "" && noNLb id
| EKind.num n => wfNum n
| EKind.strE _ => true
| EKind.joined segs => wfSegs segs
| EKind.tuple elts => wfL elts
| EKind.setE elts => wfL elts
| EKind.binop _ l r => wfE l && wfE r
| EKind.call f args kws => wfE f && wfL args && wfKw kws
| EKind.genexp elt target iter => wfE elt && wfE target && wfE iter

def wfL : PyExprList → Bool
| PyExprList.nil => true
| PyExprList.cons e es => wfE e && wfL es

def wfSeg : Seg → Bool
| Seg.strSeg _ => true
| Seg.constSeg _ => true
| Seg.fmtVal _ v _ => wfE v
| Seg.fmtValSpec _ v _ spec => wfE v && wfSegs spec

def wfSegs : SegList → Bool
| SegList.nil => true
| SegList.cons s rest => wfSeg s && wfSegs rest

def wfKw : KwList → Bool
| KwList.nil => true
| KwList.cons arg v rest => noNLb (arg.getD "") && wfE v && wfKw rest

end

def wfStmt : PyStmt → Bool
| PyStmt.exprStmt e => wfE e

def wfStmts : List PyStmt → Bool
| [] => true
| s :: ss => wfStmt s && wfStmts ss

def wfNode : PyNode → Bool
| PyNode.module ss => wfStmts ss
| PyNode.expr e => wfE e

end WellFormed

section ExampleTrees

/-- Builds an embedded expression list from a Lean list. -/
def elist : List PyExpr → PyExprList
| [] => PyExprList.nil
| e :: es => PyExprList.cons e (elist es)

/-- A fresh (unannotated) Name node. -/
def eName (id : String) : PyExpr := PyExpr.mk none (EKind.name id)

/-- A fresh numeric Constant node carrying a finite value's repr. -/
def eNum (r : String) : PyExpr :=
  PyExpr.mk none (EKind.num (PyNum.real (FloatPart.fin r false)))

def eBin (op : BinOpKind) (l r : PyExpr) : PyExpr :=
  PyExpr.mk none (EKind.binop op l r)

def eTup (l : List PyExpr) : PyExpr := PyExpr.mk none (EKind.tuple (elist l))

def eSet (l : List PyExpr) : PyExpr := PyExpr.mk none (EKind.setE (elist l))

def eCall (f : PyExpr) (args : List PyExpr) : PyExpr :=
  PyExpr.mk none (EKind.call f (elist args) KwList.nil)

/-- The generator expression `(x for x in y)`, fresh. -/
def eGen : PyExpr :=
  PyExpr.mk none (EKind.genexp (eName "x") (eName "x") (eName "y"))

/-- A module holding a single expression statement. -/
def mod1 (e : PyExpr) : PyNode := PyNode.module [PyStmt.exprStmt e]

end ExampleTrees

/-- The number of trailing `'\n'` characters of a string. -/
def trailingNlCount (t : String) : Nat :=
  (t.data.reverse.takeWhile (fun c => c = '\n')).length

/-- The first character of a string, if any. -/
def headChar (t : String) : Option Char := t.data.head?

/-- The fragments that a flush of the pending newlines prepends to the
next written item: the newline run followed by the indentation. -/
def flushFrags (st : GenState) : List String :=
  if st.newLines = 0 then [] else [nlRun st.newLines, indentText st]

/-- A newline-free string. -/
def NoNL (s : String) : Prop := ∀ c ∈ s.data, c ≠ '\n'

/-- A fragment list is newline-free. -/
def NoNLs (l : List String) : Prop := ∀ f ∈ l, ∀ c ∈ f.data, c ≠ '\n'

/-- A journal event is compatible with the buffer prefix of length
`base`: appends always are, and a retroactive clear or splice only if
it targets a slot at or beyond `base`. -/
def IdxOk (base : Nat) : BufEvent → Prop
| BufEvent.append _ => True
| BufEvent.clearOpen i => base ≤ i
| BufEvent.deleteFrom i => base ≤ i

/-- State `b` is reachable from `a` without touching what `a` already
held: `a.result` is a prefix of `b.result`, and every journal event
recorded since `a` targets the region at or beyond `a.result`'s end. -/
def ExtFrom (a b : GenState) : Prop :=
  (∃ t, b.result = a.result ++ t) ∧
  ∃ ev, b.journal = a.journal ++ ev ∧ ∀ e ∈ ev, IdxOk a.result.length e

/-- State `b` extends state `a` by a flush of `a`'s pending newlines
followed by newline-free fragments with nonempty concatenation, ending
with no newlines pending and the configuration unchanged. -/
def EmitsTok (a b : GenState) : Prop :=
  b.newLines = 0 ∧ b.indentation = a.indentation ∧ b.indentWith = a.indentWith ∧
  b.usingUnicode = a.usingUnicode ∧
  ∃ rest, b.result = a.result ++ flushFrags a ++ rest ∧ NoNLs rest ∧ strJoin rest ≠ ""

/-- State `b` extends state `a` (which must have no pending newlines at
use sites) by appended fragments only, with no newlines pending after
and the configuration unchanged. -/
def Quiet (a b : GenState) : Prop :=
  b.newLines = 0 ∧ b.indentation = a.indentation ∧ b.indentWith = a.indentWith ∧
  b.usingUnicode = a.usingUnicode ∧ ∃ t, b.result = a.result ++ t

/-- The rendered content of a nonempty statement list at depth 0: a
nonempty text that starts and ends with a non-newline character. -/
def StGood (mid : List String) : Prop :=
  (∃ c cs, (strJoin mid).data = c :: cs ∧ c ≠ '\n') ∧
  (∃ c, (strJoin mid).data.getLast? = some c ∧ c ≠ '\n')

/-- Extracts the first call argument of a generated tree rooted at a
bare call expression (used to observe the annotation left behind on a
subnode by a surrounding generation). -/
def firstArgOf : PyNode → PyExpr
| PyNode.expr (PyExpr.mk _ (EKind.call _ (PyExprList.cons a _) _)) => a
| _ => eName "missing"

section StringToolkit

theorem str_ext {s t : String} (h : s.data = t.data) : s = t := by
  cases s; cases t; simp_all

theorem str_empty_iff {s : String} : s = "" ↔ s.data = [] := by
  cases s; constructor <;> intro h <;> simp_all [String.ext_iff]

theorem strJoin_cons (s : String) (l : List String) :
    strJoin (s :: l) = s ++ strJoin l := rfl

theorem strJoin_append (a b : List String) :
    strJoin (a ++ b) = strJoin a ++ strJoin b := by
  induction a with
  | nil =>
      apply str_ext
      simp [strJoin, String.data_append]
  | cons s t ih =>
      apply str_ext
      simp [strJoin, String.data_append, ih]

theorem strJoin_data (l : List String) :
    (strJoin l).data = (l.map String.data).flatten := by
  induction l with
  | nil => simp [strJoin]
  | cons s t ih => simp [strJoin, String.data_append, ih]

theorem append_ne_empty_left {s t : String} (h : s ≠ "") : s ++ t ≠ "" := by
  intro hc
  apply h
  rw [str_empty_iff] at hc ⊢
  rw [String.data_append] at hc
  exact List.append_eq_nil.mp hc |>.1

theorem append_ne_empty_right {s t : String} (h : t ≠ "") : s ++ t ≠ "" := by
  intro hc
  apply h
  rw [str_empty_iff] at hc ⊢
  rw [String.data_append] at hc
  exact List.append_eq_nil.mp hc |>.2

theorem strJoin_ne_empty_left {l : List String} {s : String}
    (hs : s ∈ l) (h : s ≠ "") : strJoin l ≠ "" := by
  induction l with
  | nil => cases hs
  | cons a t ih =>
      rcases List.mem_cons.mp hs with h' | h'
      · subst h'
        exact append_ne_empty_left h
      · exact append_ne_empty_right (ih h')

theorem noNLs_nil : NoNLs [] := by intro f hf; cases hf

theorem noNLs_append {a b : List String} (ha : NoNLs a) (hb : NoNLs b) :
    NoNLs (a ++ b) := by
  intro f hf
  rcases List.mem_append.mp hf with h | h
  · exact ha f h
  · exact hb f h

theorem noNLs_cons {s : String} {l : List String}
    (hs : ∀ c ∈ s.data, c ≠ '\n') (hl : NoNLs l) : NoNLs (s :: l) := by
  intro f hf
  rcases List.mem_cons.mp hf with h | h
  · subst h
    exact hs
  · exact hl f h

theorem noNLs_single {s : String} (hs : ∀ c ∈ s.data, c ≠ '\n') :
    NoNLs [s] := noNLs_cons hs noNLs_nil

theorem noNLs_strJoin {l : List String} (h : NoNLs l) :
    ∀ c ∈ (strJoin l).data, c ≠ '\n' := by
  intro c hc
  rw [strJoin_data] at hc
  rcases List.mem_flatten.mp hc with ⟨d, hd, hcd⟩
  rcases List.mem_map.mp hd with ⟨f, hf, rfl⟩
  exact h f hf c hcd

theorem noNLb_iff {s : String} : noNLb s = true ↔ ∀ c ∈ s.data, c ≠ '\n' := by
  simp [noNLb]

theorem set_append_ge (l₁ l₂ : List String) (n : Nat) (x : String)
    (h : l₁.length ≤ n) :
    (l₁ ++ l₂).set n x = l₁ ++ l₂.set (n - l₁.length) x := by
  induction l₁ generalizing n with
  | nil => simp
  | cons a t ih =>
      cases n with
      | zero => simp at h
      | succ m =>
          have h' : t.length ≤ m := by
            simp only [List.length_cons] at h
            omega
          show a :: (t ++ l₂).set m x = a :: (t ++ l₂.set (m + 1 - (a :: t).length) x)
          rw [ih m h']
          have : m + 1 - (a :: t).length = m - t.length := by
            simp only [List.length_cons]
            omega
          rw [this]

end StringToolkit

section StateLemmas

theorem appendFrag_result (st : GenState) (s : String) :
    (appendFrag st s).result = st.result ++ [s] := rfl

theorem appendFrag_journal (st : GenState) (s : String) :
    (appendFrag st s).journal = st.journal ++ [BufEvent.append s] := rfl

theorem writeStr_newLines (st : GenState) (item : String) :
    (writeStr st item).newLines = 0 := by
  by_cases h : st.newLines = 0 <;> by_cases hi : item = "" <;>
    simp [writeStr, appendFrag, h, hi]

theorem writeStr_indentation (st : GenState) (item : String) :
    (writeStr st item).indentation = st.indentation := by
  by_cases h : st.newLines = 0 <;> by_cases hi : item = "" <;>
    simp [writeStr, appendFrag, h, hi]

theorem writeStr_indentWith (st : GenState) (item : String) :
    (writeStr st item).indentWith = st.indentWith := by
  by_cases h : st.newLines = 0 <;> by_cases hi : item = "" <;>
    simp [writeStr, appendFrag, h, hi]

theorem writeStr_usingUnicode (st : GenState) (item : String) :
    (writeStr st item).usingUnicode = st.usingUnicode := by
  by_cases h : st.newLines = 0 <;> by_cases hi : item = "" <;>
    simp [writeStr, appendFrag, h, hi]

theorem writeStr_result (st : GenState) (item : String) :
    (writeStr st item).result =
      st.result ++ flushFrags st ++ (if item = "" then [] else [item]) := by
  by_cases h : st.newLines = 0 <;> by_cases hi : item = "" <;>
    simp [writeStr, flushFrags, appendFrag, indentText, h, hi]

theorem writeStr_journal (st : GenState) (item : String) :
    (writeStr st item).journal =
      st.journal ++
        ((flushFrags st ++ (if item = "" then [] else [item])).map BufEvent.append) := by
  by_cases h : st.newLines = 0 <;> by_cases hi : item = "" <;>
    simp [writeStr, flushFrags, appendFrag, indentText, h, hi]

theorem writeStr_empty_of_nl0 {st : GenState} (h : st.newLines = 0) :
    writeStr st "" = st := by
  simp [writeStr, h]

theorem writeStr_nl0_result {st : GenState} (h : st.newLines = 0) (item : String) :
    (writeStr st item).result = st.result ++ (if item = "" then [] else [item]) := by
  rw [writeStr_result]
  simp [flushFrags, h]

theorem flushFrags_nl0 {st : GenState} (h : st.newLines = 0) : flushFrags st = [] := by
  simp [flushFrags, h]

theorem newlineReq_result (st : GenState) (extra : Nat) :
    (newlineReq st extra).result = st.result := rfl

theorem writeStr_length_ge (st : GenState) (item : String) (h : item ≠ "") :
    st.result.length + 1 ≤ (writeStr st item).result.length := by
  rw [writeStr_result]
  simp [h]

theorem writeStr_length_eq (st : GenState) (item : String) (h : item ≠ "") :
    (writeStr st item).result.length =
      st.result.length + (flushFrags st).length + 1 := by
  rw [writeStr_result]
  simp [h]
  omega

end StateLemmas

section ExtensionFamily

theorem idxOk_mono {m n : Nat} (h : m ≤ n) {e : BufEvent} (he : IdxOk n e) :
    IdxOk m e := by
  cases e <;> simp [IdxOk] at he ⊢ <;> omega

theorem extFrom_refl (a : GenState) : ExtFrom a a :=
  ⟨⟨[], by simp⟩, ⟨[], by simp, by intro e he; cases he⟩⟩

theorem extFrom_trans {a b c : GenState} (h₁ : ExtFrom a b) (h₂ : ExtFrom b c) :
    ExtFrom a c := by
  obtain ⟨⟨t₁, ht₁⟩, ⟨ev₁, hev₁, hok₁⟩⟩ := h₁
  obtain ⟨⟨t₂, ht₂⟩, ⟨ev₂, hev₂, hok₂⟩⟩ := h₂
  refine ⟨⟨t₁ ++ t₂, by rw [ht₂, ht₁, List.append_assoc]⟩,
    ⟨ev₁ ++ ev₂, by rw [hev₂, hev₁, List.append_assoc], ?_⟩⟩
  intro e he
  rcases List.mem_append.mp he with h | h
  · exact hok₁ e h
  · refine idxOk_mono ?_ (hok₂ e h)
    rw [ht₁]
    simp

theorem extFrom_write (st : GenState) (item : String) :
    ExtFrom st (writeStr st item) := by
  refine ⟨⟨_, by rw [writeStr_result, List.append_assoc]⟩,
    ⟨_, writeStr_journal st item, ?_⟩⟩
  intro e he
  rcases List.mem_map.mp he with ⟨s, _, rfl⟩
  trivial

theorem extFrom_append (st : GenState) (s : String) :
    ExtFrom st (appendFrag st s) := by
  refine ⟨⟨[s], rfl⟩, ⟨[BufEvent.append s], rfl, ?_⟩⟩
  intro e he
  rw [List.mem_singleton.mp he]
  trivial

theorem extFrom_clear {a st : GenState} (h : ExtFrom a st) {idx : Nat}
    (hidx : a.result.length ≤ idx) : ExtFrom a (clearSlot st idx) := by
  obtain ⟨⟨t, ht⟩, ⟨ev, hev, hok⟩⟩ := h
  refine ⟨⟨t.set (idx - a.result.length) "", ?_⟩,
    ⟨ev ++ [BufEvent.clearOpen idx], ?_, ?_⟩⟩
  · show st.result.set idx "" = _
    rw [ht, set_append_ge _ _ _ _ hidx]
  · show st.journal ++ _ = _
    rw [hev, List.append_assoc]
  · intro e he
    rcases List.mem_append.mp he with h' | h'
    · exact hok e h'
    · rw [List.mem_singleton.mp h']
      exact hidx

theorem extFrom_colinfo {a st : GenState} (h : ExtFrom a st) (x : Nat × Nat) :
    ExtFrom a { st with colinfo := x } := h

theorem extFrom_splice {a st : GenState} (h : ExtFrom a st) {idx : Nat}
    (hidx : a.result.length ≤ idx) (x : Nat × Nat) :
    ExtFrom a { st with result := st.result.take idx,
                        journal := st.journal ++ [BufEvent.deleteFrom idx],
                        colinfo := x } := by
  obtain ⟨⟨t, ht⟩, ⟨ev, hev, hok⟩⟩ := h
  refine ⟨⟨t.take (idx - a.result.length), ?_⟩,
    ⟨ev ++ [BufEvent.deleteFrom idx], ?_, ?_⟩⟩
  · show st.result.take idx = _
    rw [ht, List.take_append_eq_append_take,
        List.take_of_length_le (by omega : a.result.length ≤ idx)]
  · show st.journal ++ _ = _
    rw [hev, List.append_assoc]
  · intro e he
    rcases List.mem_append.mp he with h' | h'
    · exact hok e h'
    · rw [List.mem_singleton.mp h']
      exact hidx

/-- The length of the result grows along `ExtFrom`. -/
theorem extFrom_length {a b : GenState} (h : ExtFrom a b) :
    a.result.length ≤ b.result.length := by
  obtain ⟨⟨t, ht⟩, _⟩ := h
  rw [ht]
  simp

theorem empty_append_str (s : String) : "" ++ s = s := by
  apply str_ext
  rw [String.data_append]
  rfl

theorem append_empty_str (s : String) : s ++ "" = s := by
  apply str_ext
  rw [String.data_append]
  simp [str_empty_iff.mp rfl]

theorem noNL_append {s t : String} (hs : NoNL s) (ht : NoNL t) : NoNL (s ++ t) := by
  intro c hc
  rw [String.data_append] at hc
  rcases List.mem_append.mp hc with h | h
  · exact hs c h
  · exact ht c h

theorem noNL_empty : NoNL "" := by
  intro c hc
  cases hc

theorem noNL_lit {s : String} (h : noNLb s = true) : NoNL s :=
  fun c hc => noNLb_iff.mp h c hc

theorem partFmt_ne_empty {p : FloatPart} (h : wfPart p = true) (imag : Bool) :
    partFmt p imag ≠ "" := by
  cases p with
  | fin r z =>
      simp only [wfPart, Bool.and_eq_true, decide_eq_true_eq] at h
      cases imag <;> exact append_ne_empty_left h.1
  | inf => cases imag <;> decide
  | neginf => cases imag <;> decide
  | nan => cases imag <;> decide

theorem partFmt_noNL {p : FloatPart} (h : wfPart p = true) (imag : Bool) :
    NoNL (partFmt p imag) := by
  cases p with
  | fin r z =>
      simp only [wfPart, Bool.and_eq_true] at h
      have hr : NoNL r := noNL_lit h.2
      cases imag <;> exact noNL_append hr (noNL_lit (by decide))
  | inf => cases imag <;> exact noNL_lit (by decide)
  | neginf => cases imag <;> exact noNL_lit (by decide)
  | nan => cases imag <;> exact noNL_lit (by decide)

theorem numericText_ne_empty {n : PyNum} (h : wfNum n = true) :
    numericText n ≠ "" := by
  cases n with
  | real p => exact partFmt_ne_empty h false
  | cplx re im =>
      simp only [wfNum, Bool.and_eq_true] at h
      simp only [numericText]
      by_cases h1 : re.zero = true
      · simp only [if_pos h1]
        exact partFmt_ne_empty h.2 true
      · simp only [if_neg h1]
        by_cases h2 : im.zero = true
        · simp only [if_pos h2]
          exact append_ne_empty_left (append_ne_empty_left (by decide))
        · simp only [if_neg h2]
          exact append_ne_empty_left (append_ne_empty_left
            (append_ne_empty_left (append_ne_empty_left (by decide))))

theorem numericText_noNL {n : PyNum} (h : wfNum n = true) :
    NoNL (numericText n) := by
  cases n with
  | real p => exact partFmt_noNL h false
  | cplx re im =>
      simp only [wfNum, Bool.and_eq_true] at h
      have hre := partFmt_noNL h.1 false
      have him := partFmt_noNL h.2 true
      simp only [numericText]
      by_cases h1 : re.zero = true
      · simp only [if_pos h1]
        exact him
      · simp only [if_neg h1]
        by_cases h2 : im.zero = true
        · simp only [if_pos h2]
          exact noNL_append (noNL_append (noNL_lit (by decide)) hre)
            (noNL_lit (by decide))
        · simp only [if_neg h2]
          refine noNL_append (noNL_append (noNL_append (noNL_append
            (noNL_lit (by decide)) hre) ?_) him) (noNL_lit (by decide))
          split
          · exact noNL_empty
          · exact noNL_lit (by decide)

theorem escChar_noNL (c : Char) : NoNL (escChar c) := by
  by_cases h1 : c = '\\'
  · subst h1
    exact noNL_lit (by decide)
  · by_cases h2 : c = '\''
    · subst h2
      exact noNL_lit (by decide)
    · by_cases h3 : c = '\n'
      · subst h3
        exact noNL_lit (by decide)
      · simp only [escChar, if_neg h1, if_neg h2, if_neg h3]
        intro d hd
        rw [show (String.mk [c]).data = [c] from rfl] at hd
        rw [List.mem_singleton.mp hd]
        exact h3

theorem escapeStr_noNL (s : String) : NoNL (escapeStr s) := by
  intro c hc
  simp only [escapeStr] at hc
  rw [strJoin_data] at hc
  rcases List.mem_flatten.mp hc with ⟨d, hd, hcd⟩
  rcases List.mem_map.mp hd with ⟨f, hf, rfl⟩
  rcases List.mem_map.mp hf with ⟨ch, _, rfl⟩
  exact escChar_noNL ch c hcd

theorem prettyString_noNL (raw : String) (e : Nat) (cl : String) (u : Bool) :
    NoNL (prettyString raw e cl u) := by
  simp only [prettyString]
  exact noNL_append (noNL_append (noNL_lit (by decide)) (escapeStr_noNL raw))
    (noNL_lit (by decide))

theorem prettyString_ne_empty (raw : String) (e : Nat) (cl : String) (u : Bool) :
    prettyString raw e cl u ≠ "" := by
  simp only [prettyString]
  exact append_ne_empty_left (append_ne_empty_left (by decide))

theorem ext_handleStr (pp : Option Nat) (v : String) (st : GenState) :
    ExtFrom st (handleStr pp v st) := by
  simp only [handleStr]
  split
  · exact extFrom_colinfo
      (extFrom_trans (extFrom_write st "") (extFrom_write _ _)) _
  · exact extFrom_trans (extFrom_write st "") (extFrom_write _ _)

theorem ext_open_bound (st : GenState) (item : String) (h : item ≠ "") :
    st.result.length ≤ (writeStr st item).result.length - 1 := by
  rw [writeStr_length_eq st item h]
  omega

theorem emits_write {st : GenState} {item : String} (h : item ≠ "")
    (hn : NoNL item) : EmitsTok st (writeStr st item) := by
  refine ⟨writeStr_newLines st item, writeStr_indentation st item,
    writeStr_indentWith st item, writeStr_usingUnicode st item,
    [item], ?_, noNLs_single hn, ?_⟩
  · rw [writeStr_result]
    simp [h]
  · rw [strJoin_cons]
    exact append_ne_empty_left h

theorem emits_trans {a b c : GenState} (h₁ : EmitsTok a b) (h₂ : EmitsTok b c) :
    EmitsTok a c := by
  obtain ⟨hb0, hbi, hbw, hbu, rest₁, hr₁, hn₁, hj₁⟩ := h₁
  obtain ⟨hc0, hci, hcw, hcu, rest₂, hr₂, hn₂, hj₂⟩ := h₂
  refine ⟨hc0, by rw [hci, hbi], by rw [hcw, hbw], by rw [hcu, hbu],
    rest₁ ++ rest₂, ?_, noNLs_append hn₁ hn₂, ?_⟩
  · rw [hr₂, flushFrags_nl0 hb0, hr₁]
    simp
  · rw [strJoin_append]
    exact append_ne_empty_left hj₁

theorem emits_tok {a b : GenState} (h : EmitsTok a b) {item : String}
    (hn : NoNL item) : EmitsTok a (writeStr b item) := by
  by_cases hi : item = ""
  · subst hi
    rwa [writeStr_empty_of_nl0 h.1]
  · exact emits_trans h (emits_write hi hn)

theorem emits_append {a b : GenState} (h : EmitsTok a b) {s : String}
    (hn : NoNL s) : EmitsTok a (appendFrag b s) := by
  obtain ⟨hb0, hbi, hbw, hbu, rest, hr, hnr, hj⟩ := h
  refine ⟨hb0, hbi, hbw, hbu, rest ++ [s], ?_, noNLs_append hnr (noNLs_single hn), ?_⟩
  · rw [appendFrag_result, hr]
    simp
  · rw [strJoin_append]
    exact append_ne_empty_left hj

theorem emits_colinfo {a b : GenState} (h : EmitsTok a b) (x : Nat × Nat) :
    EmitsTok a { b with colinfo := x } := h

theorem emits_clear_open {a b : GenState} {tok : String} (htok : tok ≠ "")
    (h : EmitsTok (writeStr a tok) b) :
    EmitsTok a (clearSlot b ((writeStr a tok).result.length - 1)) := by
  obtain ⟨hb0, hbi, hbw, hbu, rest, hr, hnr, hj⟩ := h
  rw [flushFrags_nl0 (writeStr_newLines a tok), List.append_nil] at hr
  have hres : (writeStr a tok).result = (a.result ++ flushFrags a) ++ [tok] := by
    rw [writeStr_result]
    simp [htok]
  have hidx : (writeStr a tok).result.length - 1 = (a.result ++ flushFrags a).length := by
    rw [writeStr_length_eq a tok htok]
    simp
  refine ⟨hb0,
    by simp only [clearSlot]; rw [hbi, writeStr_indentation],
    by simp only [clearSlot]; rw [hbw, writeStr_indentWith],
    by simp only [clearSlot]; rw [hbu, writeStr_usingUnicode],
    "" :: rest, ?_, noNLs_cons (by intro c hc; cases hc) hnr, ?_⟩
  · show b.result.set ((writeStr a tok).result.length - 1) "" = _
    rw [hr, hres]
    have hlen : (a.result ++ flushFrags a ++ [tok]).length - 1 =
        (a.result ++ flushFrags a).length := by
      simp
    rw [hlen, List.append_assoc (a.result ++ flushFrags a) [tok] rest,
        set_append_ge _ _ _ _ (le_refl _)]
    simp [List.set]
  · rw [strJoin_cons, empty_append_str]
    exact hj

theorem emits_flush_write {st : GenState} {m : String} (h : m ≠ "")
    (hn : NoNL m) : EmitsTok st (writeStr (writeStr st "") m) := by
  refine ⟨writeStr_newLines _ m,
    by rw [writeStr_indentation, writeStr_indentation],
    by rw [writeStr_indentWith, writeStr_indentWith],
    by rw [writeStr_usingUnicode, writeStr_usingUnicode],
    [m], ?_, noNLs_single hn, ?_⟩
  · rw [writeStr_result, flushFrags_nl0 (writeStr_newLines st ""), writeStr_result]
    simp [h]
  · rw [strJoin_cons]
    exact append_ne_empty_left h

theorem quiet_of_emits {a b : GenState} (_ha : a.newLines = 0) (h : EmitsTok a b) :
    Quiet a b := by
  obtain ⟨hb0, hbi, hbw, hbu, rest, hr, _, _⟩ := h
  exact ⟨hb0, hbi, hbw, hbu, flushFrags a ++ rest, by rw [hr, List.append_assoc]⟩

theorem quiet_refl {a : GenState} (ha : a.newLines = 0) : Quiet a a :=
  ⟨ha, rfl, rfl, rfl, [], by simp⟩

theorem quiet_trans {a b c : GenState} (h₁ : Quiet a b) (h₂ : Quiet b c) :
    Quiet a c := by
  obtain ⟨hb0, hbi, hbw, hbu, t₁, hr₁⟩ := h₁
  obtain ⟨hc0, hci, hcw, hcu, t₂, hr₂⟩ := h₂
  exact ⟨hc0, by rw [hci, hbi], by rw [hcw, hbw], by rw [hcu, hbu],
    t₁ ++ t₂, by rw [hr₂, hr₁, List.append_assoc]⟩

theorem quiet_write {a b : GenState} (h : Quiet a b) (item : String) :
    Quiet a (writeStr b item) := by
  obtain ⟨hb0, hbi, hbw, hbu, t, hr⟩ := h
  refine ⟨writeStr_newLines b item,
    by rw [writeStr_indentation, hbi],
    by rw [writeStr_indentWith, hbw],
    by rw [writeStr_usingUnicode, hbu],
    t ++ (if item = "" then [] else [item]), ?_⟩
  rw [writeStr_result, flushFrags_nl0 hb0, hr]
  simp

theorem quiet_append {a b : GenState} (h : Quiet a b) (s : String) :
    Quiet a (appendFrag b s) := by
  obtain ⟨hb0, hbi, hbw, hbu, t, hr⟩ := h
  exact ⟨hb0, hbi, hbw, hbu, t ++ [s], by rw [appendFrag_result, hr]; simp⟩

mutual

theorem ext_visitWith : ∀ v e st, ExtFrom st (visitWith v e st).1
| v, PyExpr.mk _ k, st => ext_visitKind (some v) k st

theorem ext_visitPlain : ∀ e st, ExtFrom st (visitPlain e st).1
| PyExpr.mk pp k, st => ext_visitKind pp k st

theorem ext_visitKind : ∀ pp k st, ExtFrom st (visitKind pp k st).1
| _, EKind.name id, st => by
    simp only [visitKind]
    exact extFrom_write st id
| pp, EKind.num n, st => by
    simp only [visitKind]
    split
    · exact extFrom_clear
        (extFrom_trans (extFrom_write st "(") (extFrom_write _ _))
        (ext_open_bound st "(" (by simp))
    · exact extFrom_trans
        (extFrom_trans (extFrom_write st "(") (extFrom_write _ _))
        (extFrom_append _ ")")
| pp, EKind.strE s, st => by
    simp only [visitKind]
    exact ext_handleStr pp s st
| pp, EKind.joined segs, st => by
    simp only [visitKind]
    have h1 : ExtFrom st (writeStr st "") := extFrom_write st ""
    have h2 : ExtFrom st (visitSegs segs (writeStr st "")).1 :=
      extFrom_trans h1 (ext_visitSegs segs _)
    have h3 : ExtFrom st (writeStr (visitSegs segs (writeStr st "")).1 "") :=
      extFrom_trans h2 (extFrom_write _ "")
    have hidx : st.result.length ≤ (writeStr st "").result.length :=
      extFrom_length h1
    have h4 := extFrom_splice h3 hidx (writeStr st "").colinfo
    split
    · exact extFrom_colinfo (extFrom_trans h4 (extFrom_write _ _)) _
    · exact extFrom_trans h4 (extFrom_write _ _)
| pp, EKind.tuple elts, st => by
    simp only [visitKind]
    have h1 : ExtFrom st (writeStr st "(") := extFrom_write st "("
    have h2 : ExtFrom st (commaSepList elts true (writeStr st "(")).1 :=
      extFrom_trans h1 (ext_commaSep elts true _)
    have h3 := extFrom_trans h2 (extFrom_write _ (if eLen elts = 1 then "," else ""))
    split
    · exact extFrom_clear h3 (ext_open_bound st "(" (by simp))
    · exact extFrom_trans h3 (extFrom_append _ ")")
| pp, EKind.setE elts, st => by
    match elts with
    | PyExprList.nil =>
        simp only [visitKind]
        exact extFrom_write st _
    | PyExprList.cons e es =>
        simp only [visitKind]
        have h1 : ExtFrom st (writeStr st "\x7b") := extFrom_write st "\x7b"
        have h2 : ExtFrom st (commaSepList (PyExprList.cons e es) true (writeStr st "\x7b")).1 :=
          extFrom_trans h1 (ext_commaSep _ true _)
        have h3 := extFrom_trans h2 (extFrom_write _ "")
        exact extFrom_trans h3 (extFrom_append _ "\x7d")
| pp, EKind.binop op l r, st => by
    simp only [visitKind]
    have h1 : ExtFrom st (writeStr st "(") := extFrom_write st "("
    have h2 := extFrom_trans h1 (ext_visitWith (binOpLeftPrec op) l _)
    have h3 := extFrom_trans h2 (extFrom_write _ (" " ++ opSym op ++ " "))
    have h4 := extFrom_trans h3 (ext_visitWith (binOpRightPrec op) r _)
    split
    · exact extFrom_clear h4 (ext_open_bound st "(" (by simp))
    · exact extFrom_trans h4 (extFrom_append _ ")")
| pp, EKind.call f args kws, st => by
    simp only [visitKind]
    have h1 : ExtFrom st (visitPlain f st).1 := ext_visitPlain f st
    have h2 := extFrom_trans h1 (extFrom_write _ "(")
    have h3 := extFrom_trans h2
      (ext_argsLoop (callArgPrec (eLen args + kLen kws)) args false _)
    have h4 := extFrom_trans h3 (ext_kwsLoop kws
      (callArgsLoop (callArgPrec (eLen args + kLen kws)) args false
        (writeStr (visitPlain f st).1 "(")).2.2 _)
    exact extFrom_trans h4 (extFrom_write _ ")")
| pp, EKind.genexp elt target iter, st => by
    simp only [visitKind]
    have h1 : ExtFrom st (writeStr st "(") := extFrom_write st "("
    have h2 := extFrom_trans h1 (ext_visitWith Prec.Comma elt _)
    have h3 := extFrom_trans h2 (extFrom_write _ " for ")
    have h4 := extFrom_trans h3 (ext_visitWith Prec.comprehension_target target _)
    have h5 := extFrom_trans h4 (extFrom_write _ " in ")
    have h6 := extFrom_trans h5 (ext_visitWith Prec.comprehension iter _)
    split
    · exact extFrom_clear h6 (ext_open_bound st "(" (by simp))
    · exact extFrom_trans h6 (extFrom_append _ ")")

theorem ext_commaSep : ∀ es first st, ExtFrom st (commaSepList es first st).1
| PyExprList.nil, _, st => by
    simp only [commaSepList]
    exact extFrom_refl st
| PyExprList.cons e es, first, st => by
    simp only [commaSepList]
    have h1 : ExtFrom st (writeStr st (if first then "" else ", ")) := extFrom_write st _
    have h2 := extFrom_trans h1 (ext_visitWith Prec.Comma e _)
    exact extFrom_trans h2 (ext_commaSep es false _)

theorem ext_argsLoop : ∀ p args want st, ExtFrom st (callArgsLoop p args want st).1
| _, PyExprList.nil, _, st => by
    simp only [callArgsLoop]
    exact extFrom_refl st
| p, PyExprList.cons e es, want, st => by
    simp only [callArgsLoop]
    have h1 : ExtFrom st (if want then writeStr st ", " else st) := by
      split
      · exact extFrom_write st ", "
      · exact extFrom_refl st
    have h2 := extFrom_trans h1 (ext_visitWith p e _)
    exact extFrom_trans h2 (ext_argsLoop p es true _)

theorem ext_kwsLoop : ∀ kws want st, ExtFrom st (callKwsLoop kws want st).1
| KwList.nil, _, st => by
    simp only [callKwsLoop]
    exact extFrom_refl st
| KwList.cons argName v rest, want, st => by
    simp only [callKwsLoop]
    have h1 : ExtFrom st (if want then writeStr st ", " else st) := by
      split
      · exact extFrom_write st ", "
      · exact extFrom_refl st
    have h2 := extFrom_trans h1 (extFrom_write _ (argName.getD ""))
    have h3 := extFrom_trans h2
      (extFrom_write _ (if argName.getD "" = "" then "**" else "="))
    have h4 := extFrom_trans h3 (ext_visitWith Prec.Comma v _)
    exact extFrom_trans h4 (ext_kwsLoop rest true _)

theorem ext_visitSegs : ∀ segs st, ExtFrom st (visitSegs segs st).1
| SegList.nil, st => by
    simp only [visitSegs]
    exact extFrom_refl st
| SegList.cons s rest, st => by
    simp only [visitSegs]
    exact extFrom_trans (ext_visitSeg s st) (ext_visitSegs rest _)

theorem ext_visitSeg : ∀ s st, ExtFrom st (visitSeg s st).1
| Seg.strSeg s, st => by
    simp only [visitSeg]
    exact extFrom_write st _
| Seg.constSeg s, st => by
    simp only [visitSeg]
    exact extFrom_write st _
| Seg.fmtVal exprText v conv, st => by
    simp only [visitSeg]
    have h1 : ExtFrom st (writeStr st "\x7b") := extFrom_write st _
    have h2 : ExtFrom st
        (match exprText with
         | some t => (writeStr (writeStr st "\x7b") t, v)
         | none => visitWith Prec.FormattedValue v (writeStr st "\x7b")).1 := by
      match exprText with
      | some t => exact extFrom_trans h1 (extFrom_write _ t)
      | none => exact extFrom_trans h1 (ext_visitWith Prec.FormattedValue v _)
    have h3 : ExtFrom st
        (match conv with
         | some c => writeStr (match exprText with
             | some t => (writeStr (writeStr st "\x7b") t, v)
             | none => visitWith Prec.FormattedValue v (writeStr st "\x7b")).1
             ("!" ++ String.mk [c])
         | none => (match exprText with
             | some t => (writeStr (writeStr st "\x7b") t, v)
             | none => visitWith Prec.FormattedValue v (writeStr st "\x7b")).1) := by
      match conv with
      | some c => exact extFrom_trans h2 (extFrom_write _ _)
      | none => exact h2
    exact extFrom_trans h3 (extFrom_append _ "\x7d")
| Seg.fmtValSpec exprText v conv spec, st => by
    simp only [visitSeg]
    have h1 : ExtFrom st (writeStr st "\x7b") := extFrom_write st _
    have h2 : ExtFrom st
        (match exprText with
         | some t => (writeStr (writeStr st "\x7b") t, v)
         | none => visitWith Prec.FormattedValue v (writeStr st "\x7b")).1 := by
      match exprText with
      | some t => exact extFrom_trans h1 (extFrom_write _ t)
      | none => exact extFrom_trans h1 (ext_visitWith Prec.FormattedValue v _)
    have h3 : ExtFrom st
        (match conv with
         | some c => writeStr (match exprText with
             | some t => (writeStr (writeStr st "\x7b") t, v)
             | none => visitWith Prec.FormattedValue v (writeStr st "\x7b")).1
             ("!" ++ String.mk [c])
         | none => (match exprText with
             | some t => (writeStr (writeStr st "\x7b") t, v)
             | none => visitWith Prec.FormattedValue v (writeStr st "\x7b")).1) := by
      match conv with
      | some c => exact extFrom_trans h2 (extFrom_write _ _)
      | none => exact h2
    have h4 := extFrom_trans h3 (extFrom_write _ ":")
    have h5 := extFrom_trans h4 (ext_visitSegs spec _)
    exact extFrom_trans h5 (extFrom_append _ "\x7d")

end

end ExtensionFamily

section EmitsFamily

theorem emits_joined_tail {st st4 : GenState} (h0 : st4.newLines = 0)
    (hi : st4.indentation = st.indentation) (hw : st4.indentWith = st.indentWith)
    (hu : st4.usingUnicode = st.usingUnicode)
    (hres : st4.result = st.result ++ flushFrags st)
    {m : String} (hm : m ≠ "") (hnm : NoNL m) :
    EmitsTok st (writeStr st4 m) := by
  refine ⟨writeStr_newLines _ m,
    by rw [writeStr_indentation, hi],
    by rw [writeStr_indentWith, hw],
    by rw [writeStr_usingUnicode, hu],
    [m], ?_, noNLs_single hnm, ?_⟩
  · rw [writeStr_result, flushFrags_nl0 h0, hres]
    simp [hm]
  · rw [strJoin_cons]
    exact append_ne_empty_left hm

mutual

theorem emits_visitWith : ∀ v e st, wfE e = true → EmitsTok st (visitWith v e st).1
| v, PyExpr.mk _ k, st, h => emits_visitKind (some v) k st h

theorem emits_visitPlain : ∀ e st, wfE e = true → EmitsTok st (visitPlain e st).1
| PyExpr.mk pp k, st, h => emits_visitKind pp k st h

theorem emits_visitKind : ∀ pp k st, wfK k = true → EmitsTok st (visitKind pp k st).1
| pp, EKind.name id, st, h => by
    simp only [visitKind]
    simp only [wfK, Bool.and_eq_true, decide_eq_true_eq] at h
    exact emits_write h.1 (noNL_lit h.2)
| pp, EKind.num n, st, h => by
    simp only [visitKind]
    simp only [wfK] at h
    have hopen : EmitsTok st (writeStr st "(") :=
      emits_write (by decide) (noNL_lit (by decide))
    have hbody : EmitsTok (writeStr st "(") (writeStr (writeStr st "(") (numericText n)) :=
      emits_write (numericText_ne_empty h) (numericText_noNL h)
    split
    · exact emits_clear_open (by decide) hbody
    · exact emits_append (emits_trans hopen hbody) (noNL_lit (by decide))
| pp, EKind.strE s, st, _h => by
    simp only [visitKind, handleStr]
    split
    · exact emits_colinfo
        (emits_flush_write (prettyString_ne_empty _ _ _ _) (prettyString_noNL _ _ _ _)) _
    · exact emits_flush_write (prettyString_ne_empty _ _ _ _) (prettyString_noNL _ _ _ _)
| pp, EKind.joined segs, st, h => by
    simp only [visitKind]
    simp only [wfK] at h
    have hq : Quiet (writeStr st "") (visitSegs segs (writeStr st "")).1 :=
      quiet_visitSegs segs (writeStr st "") h (writeStr_newLines st "")
    rw [writeStr_empty_of_nl0 hq.1]
    have hm : ("f" ++ prettyString
        (strJoin ((visitSegs segs (writeStr st "")).1.result.drop (writeStr st "").result.length))
        (embeddedLevel pp) (currentLineOf (writeStr st "")) false) ≠ "" :=
      append_ne_empty_left (by decide)
    have hnm : NoNL ("f" ++ prettyString
        (strJoin ((visitSegs segs (writeStr st "")).1.result.drop (writeStr st "").result.length))
        (embeddedLevel pp) (currentLineOf (writeStr st "")) false) :=
      noNL_append (noNL_lit (by decide)) (prettyString_noNL _ _ _ _)
    have hres : (visitSegs segs (writeStr st "")).1.result.take
        (writeStr st "").result.length = st.result ++ flushFrags st := by
      obtain ⟨-, -, -, -, t, hqt⟩ := hq
      rw [hqt, List.take_left, writeStr_result st ""]
      simp
    have hind : (visitSegs segs (writeStr st "")).1.indentation = st.indentation := by
      rw [hq.2.1, writeStr_indentation]
    have hiw : (visitSegs segs (writeStr st "")).1.indentWith = st.indentWith := by
      rw [hq.2.2.1, writeStr_indentWith]
    have huu : (visitSegs segs (writeStr st "")).1.usingUnicode = st.usingUnicode := by
      rw [hq.2.2.2.1, writeStr_usingUnicode]
    split
    · refine emits_colinfo (emits_joined_tail ?_ ?_ ?_ ?_ ?_ hm hnm) _
      · exact hq.1
      · exact hind
      · exact hiw
      · exact huu
      · exact hres
    · refine emits_joined_tail ?_ ?_ ?_ ?_ ?_ hm hnm
      · exact hq.1
      · exact hind
      · exact hiw
      · exact huu
      · exact hres
| pp, EKind.tuple elts, st, h => by
    simp only [visitKind]
    simp only [wfK] at h
    have hopen : EmitsTok st (writeStr st "(") :=
      emits_write (by decide) (noNL_lit (by decide))
    cases elts with
    | nil =>
        simp only [commaSepList, eLen, eIsNil, Bool.not_true, Bool.and_false]
        rw [if_neg (by simp)]
        exact emits_append (emits_tok hopen noNL_empty) (noNL_lit (by decide))
    | cons e es =>
        simp only [wfL, Bool.and_eq_true] at h
        simp only [commaSepList, if_true]
        rw [writeStr_empty_of_nl0 (writeStr_newLines st "(")]
        have hbody : EmitsTok (writeStr st "(")
            (commaSepList es false (visitWith Prec.Comma e (writeStr st "(")).1).1 :=
          emits_commaSep es false _ _ h.2 (emits_visitWith Prec.Comma e _ h.1)
        have htr : EmitsTok (writeStr st "(")
            (writeStr (commaSepList es false (visitWith Prec.Comma e (writeStr st "(")).1).1
              (if eLen (PyExprList.cons e es) = 1 then "," else "")) := by
          refine emits_tok hbody ?_
          split
          · exact noNL_lit (by decide)
          · exact noNL_empty
        split
        · exact emits_clear_open (by decide) htr
        · exact emits_append (emits_trans hopen htr) (noNL_lit (by decide))
| pp, EKind.setE elts, st, h => by
    simp only [wfK] at h
    cases elts with
    | nil =>
        simp only [visitKind]
        exact emits_write (by decide) (noNL_lit (by decide))
    | cons e es =>
        simp only [visitKind]
        simp only [wfL, Bool.and_eq_true] at h
        have hopen : EmitsTok st (writeStr st "\x7b") :=
          emits_write (by decide) (noNL_lit (by decide))
        simp only [commaSepList, if_true]
        rw [writeStr_empty_of_nl0 (writeStr_newLines st "\x7b")]
        have hbody : EmitsTok st
            (commaSepList es false (visitWith Prec.Comma e (writeStr st "\x7b")).1).1 :=
          emits_commaSep es false _ _ h.2
            (emits_trans hopen (emits_visitWith Prec.Comma e _ h.1))
        exact emits_append (emits_tok hbody noNL_empty) (noNL_lit (by decide))
| pp, EKind.binop op l r, st, h => by
    simp only [visitKind]
    simp only [wfK, Bool.and_eq_true] at h
    have hopen : EmitsTok st (writeStr st "(") :=
      emits_write (by decide) (noNL_lit (by decide))
    have hsym : NoNL (" " ++ opSym op ++ " ") := by
      cases op <;> exact noNL_lit (by decide)
    have hfull : EmitsTok (writeStr st "(")
        (visitWith (binOpRightPrec op) r
          (writeStr (visitWith (binOpLeftPrec op) l (writeStr st "(")).1
            (" " ++ opSym op ++ " "))).1 :=
      emits_trans (emits_tok (emits_visitWith (binOpLeftPrec op) l _ h.1) hsym)
        (emits_visitWith (binOpRightPrec op) r _ h.2)
    split
    · exact emits_clear_open (by decide) hfull
    · exact emits_append (emits_trans hopen hfull) (noNL_lit (by decide))
| pp, EKind.call f args kws, st, h => by
    simp only [visitKind]
    simp only [wfK, Bool.and_eq_true] at h
    have hf : EmitsTok st (visitPlain f st).1 := emits_visitPlain f st h.1.1
    have h1 : EmitsTok st (writeStr (visitPlain f st).1 "(") :=
      emits_tok hf (noNL_lit (by decide))
    have h2 := emits_argsLoop (callArgPrec (eLen args + kLen kws)) args false _ st h.1.2 h1
    have h3 := emits_kwsLoop kws
      (callArgsLoop (callArgPrec (eLen args + kLen kws)) args false
        (writeStr (visitPlain f st).1 "(")).2.2 _ st h.2 h2
    exact emits_tok h3 (noNL_lit (by decide))
| pp, EKind.genexp elt target iter, st, h => by
    simp only [visitKind]
    simp only [wfK, Bool.and_eq_true] at h
    have hopen : EmitsTok st (writeStr st "(") :=
      emits_write (by decide) (noNL_lit (by decide))
    have hfull : EmitsTok (writeStr st "(")
        (visitWith Prec.comprehension iter
          (writeStr (visitWith Prec.comprehension_target target
            (writeStr (visitWith Prec.Comma elt (writeStr st "(")).1 " for ")).1 " in ")).1 := by
      have he := emits_visitWith Prec.Comma elt (writeStr st "(") h.1.1
      have ht := emits_trans (emits_tok he (show NoNL " for " from noNL_lit (by decide)))
        (emits_visitWith Prec.comprehension_target target _ h.1.2)
      exact emits_trans (emits_tok ht (show NoNL " in " from noNL_lit (by decide)))
        (emits_visitWith Prec.comprehension iter _ h.2)
    split
    · exact emits_clear_open (by decide) hfull
    · exact emits_append (emits_trans hopen hfull) (noNL_lit (by decide))

theorem emits_commaSep : ∀ es first st a, wfL es = true → EmitsTok a st →
    EmitsTok a (commaSepList es first st).1
| PyExprList.nil, _, st, a, _h, he => by
    simp only [commaSepList]
    exact he
| PyExprList.cons e es, first, st, a, h, he => by
    simp only [commaSepList]
    simp only [wfL, Bool.and_eq_true] at h
    have h0 : EmitsTok a (writeStr st (if first = true then "" else ", ")) := by
      refine emits_tok he ?_
      split
      · exact noNL_empty
      · exact noNL_lit (by decide)
    have h1 := emits_trans h0 (emits_visitWith Prec.Comma e _ h.1)
    exact emits_commaSep es false _ a h.2 h1

theorem emits_argsLoop : ∀ p args want st a, wfL args = true → EmitsTok a st →
    EmitsTok a (callArgsLoop p args want st).1
| _, PyExprList.nil, _, st, a, _h, he => by
    simp only [callArgsLoop]
    exact he
| p, PyExprList.cons e es, want, st, a, h, he => by
    simp only [callArgsLoop]
    simp only [wfL, Bool.and_eq_true] at h
    have h0 : EmitsTok a (if want = true then writeStr st ", " else st) := by
      split
      · exact emits_tok he (noNL_lit (by decide))
      · exact he
    have h1 := emits_trans h0 (emits_visitWith p e _ h.1)
    exact emits_argsLoop p es true _ a h.2 h1

theorem emits_kwsLoop : ∀ kws want st a, wfKw kws = true → EmitsTok a st →
    EmitsTok a (callKwsLoop kws want st).1
| KwList.nil, _, st, a, _h, he => by
    simp only [callKwsLoop]
    exact he
| KwList.cons argName v rest, want, st, a, h, he => by
    simp only [callKwsLoop]
    simp only [wfKw, Bool.and_eq_true] at h
    have h0 : EmitsTok a (if want = true then writeStr st ", " else st) := by
      split
      · exact emits_tok he (noNL_lit (by decide))
      · exact he
    have h1 : EmitsTok a (writeStr (if want = true then writeStr st ", " else st)
        (argName.getD "")) := emits_tok h0 (noNL_lit h.1.1)
    have h2 : EmitsTok a (writeStr (writeStr (if want = true then writeStr st ", " else st)
        (argName.getD "")) (if argName.getD "" = "" then "**" else "=")) := by
      refine emits_tok h1 ?_
      split
      · exact noNL_lit (by decide)
      · exact noNL_lit (by decide)
    have h3 := emits_trans h2 (emits_visitWith Prec.Comma v _ h.1.2)
    exact emits_kwsLoop rest true _ a h.2 h3

theorem quiet_visitSegs : ∀ segs st, wfSegs segs = true → st.newLines = 0 →
    Quiet st (visitSegs segs st).1
| SegList.nil, st, _h, hnl => by
    simp only [visitSegs]
    exact quiet_refl hnl
| SegList.cons s rest, st, h, hnl => by
    simp only [visitSegs]
    simp only [wfSegs, Bool.and_eq_true] at h
    have h1 := quiet_visitSeg s st h.1 hnl
    exact quiet_trans h1 (quiet_visitSegs rest _ h.2 h1.1)

theorem quiet_visitSeg : ∀ s st, wfSeg s = true → st.newLines = 0 →
    Quiet st (visitSeg s st).1
| Seg.strSeg s, st, _h, hnl => by
    simp only [visitSeg]
    exact quiet_write (quiet_refl hnl) _
| Seg.constSeg s, st, _h, hnl => by
    simp only [visitSeg]
    exact quiet_write (quiet_refl hnl) _
| Seg.fmtVal exprText v conv, st, h, hnl => by
    simp only [visitSeg]
    simp only [wfSeg] at h
    have h1 : Quiet st (writeStr st "\x7b") := quiet_write (quiet_refl hnl) _
    have h2 : Quiet st
        (match exprText with
         | some t => (writeStr (writeStr st "\x7b") t, v)
         | none => visitWith Prec.FormattedValue v (writeStr st "\x7b")).1 := by
      match exprText with
      | some t => exact quiet_write h1 t
      | none =>
          exact quiet_trans h1
            (quiet_of_emits (writeStr_newLines st _) (emits_visitWith Prec.FormattedValue v _ h))
    have h3 : Quiet st
        (match conv with
         | some c => writeStr (match exprText with
             | some t => (writeStr (writeStr st "\x7b") t, v)
             | none => visitWith Prec.FormattedValue v (writeStr st "\x7b")).1
             ("!" ++ String.mk [c])
         | none => (match exprText with
             | some t => (writeStr (writeStr st "\x7b") t, v)
             | none => visitWith Prec.FormattedValue v (writeStr st "\x7b")).1) := by
      match conv with
      | some c => exact quiet_write h2 _
      | none => exact h2
    exact quiet_append h3 _
| Seg.fmtValSpec exprText v conv spec, st, h, hnl => by
    simp only [visitSeg]
    simp only [wfSeg, Bool.and_eq_true] at h
    have h1 : Quiet st (writeStr st "\x7b") := quiet_write (quiet_refl hnl) _
    have h2 : Quiet st
        (match exprText with
         | some t => (writeStr (writeStr st "\x7b") t, v)
         | none => visitWith Prec.FormattedValue v (writeStr st "\x7b")).1 := by
      match exprText with
      | some t => exact quiet_write h1 t
      | none =>
          exact quiet_trans h1
            (quiet_of_emits (writeStr_newLines st _) (emits_visitWith Prec.FormattedValue v _ h.1))
    have h3 : Quiet st
        (match conv with
         | some c => writeStr (match exprText with
             | some t => (writeStr (writeStr st "\x7b") t, v)
             | none => visitWith Prec.FormattedValue v (writeStr st "\x7b")).1
             ("!" ++ String.mk [c])
         | none => (match exprText with
             | some t => (writeStr (writeStr st "\x7b") t, v)
             | none => visitWith Prec.FormattedValue v (writeStr st "\x7b")).1) := by
      match conv with
      | some c => exact quiet_write h2 _
      | none => exact h2
    have h4 := quiet_write h3 ":"
    have h5 := quiet_trans h4 (quiet_visitSegs spec _ h.2 h4.1)
    exact quiet_append h5 _

end

end EmitsFamily

section StatementAssembly

theorem nlRun_one : nlRun 1 = "\n" := rfl

theorem indentText_zero {st : GenState} (h : st.indentation = 0) :
    indentText st = "" := by
  simp [indentText, h, strJoin]

theorem strJoin_ne_nil {l : List String} (h : strJoin l ≠ "") : l ≠ [] := by
  intro hc
  subst hc
  exact h rfl

theorem head_of_noNLs {l : List String} (hn : NoNLs l) (hj : strJoin l ≠ "") :
    ∃ c cs, (strJoin l).data = c :: cs ∧ c ≠ '\n' := by
  have hd : (strJoin l).data ≠ [] := fun hc => hj (str_empty_iff.mpr hc)
  cases hdata : (strJoin l).data with
  | nil => exact absurd hdata hd
  | cons c cs =>
      refine ⟨c, cs, rfl, ?_⟩
      have : c ∈ (strJoin l).data := by
        rw [hdata]
        exact List.mem_cons_self c cs
      exact noNLs_strJoin hn c this

theorem last_of_noNLs {l : List String} (hn : NoNLs l) (hj : strJoin l ≠ "") :
    ∃ c, (strJoin l).data.getLast? = some c ∧ c ≠ '\n' := by
  have hd : (strJoin l).data ≠ [] := fun hc => hj (str_empty_iff.mpr hc)
  cases hlast : (strJoin l).data.getLast? with
  | none => exact absurd (List.getLast?_eq_none_iff.mp hlast) hd
  | some c =>
      refine ⟨c, rfl, ?_⟩
      exact noNLs_strJoin hn c (List.mem_of_mem_getLast? hlast)

theorem stGood_of_toks {l : List String} (hn : NoNLs l) (hj : strJoin l ≠ "") :
    StGood l :=
  ⟨head_of_noNLs hn hj, last_of_noNLs hn hj⟩

theorem stGood_append_chunk {r mid' : List String} (hn : NoNLs r)
    (hj : strJoin r ≠ "") (hg : StGood mid') :
    StGood (r ++ "\n" :: "" :: mid') := by
  obtain ⟨⟨c₁, cs₁, hh, hc₁⟩, ⟨c₂, hl, hc₂⟩⟩ := hg
  obtain ⟨c₀, cs₀, hh₀, hc₀⟩ := head_of_noNLs hn hj
  have hdata : (strJoin (r ++ "\n" :: "" :: mid')).data =
      (strJoin r).data ++ '\n' :: (strJoin mid').data := by
    rw [strJoin_append, strJoin_cons, strJoin_cons, empty_append_str,
        String.data_append, String.data_append]
    rfl
  constructor
  · refine ⟨c₀, cs₀ ++ '\n' :: (strJoin mid').data, ?_, hc₀⟩
    rw [hdata, hh₀]
    rfl
  · refine ⟨c₂, ?_, hc₂⟩
    rw [hdata]
    have hmid : (strJoin mid').data ≠ [] := by
      rw [hh]
      exact List.cons_ne_nil c₁ cs₁
    rw [List.getLast?_append_of_ne_nil _ (by simp [hmid])]
    rw [show ('\n' :: (strJoin mid').data) = ['\n'] ++ (strJoin mid').data from rfl]
    rw [List.getLast?_append_of_ne_nil _ hmid]
    exact hl

theorem stmt_emits (s : PyStmt) (st : GenState) (h : wfStmt s = true)
    (hnl : st.newLines = 0) :
    ((visitStmt s st).1.newLines = 0 ∧
     (visitStmt s st).1.indentation = st.indentation ∧
     (visitStmt s st).1.indentWith = st.indentWith) ∧
    ∃ rest, (visitStmt s st).1.result =
        st.result ++ nlRun 1 :: indentText st :: rest ∧
      NoNLs rest ∧ strJoin rest ≠ "" := by
  cases s with
  | exprStmt e =>
      simp only [visitStmt]
      simp only [wfStmt] at h
      have he := emits_visitWith Prec.Expr e (newlineReq st 0) h
      obtain ⟨h0, hi, hw, hu, rest, hr, hn, hj⟩ := he
      have h1 : (newlineReq st 0).newLines = 1 := by
        simp [newlineReq, hnl]
      have hff : flushFrags (newlineReq st 0) = [nlRun 1, indentText st] := by
        simp only [flushFrags, h1]
        rw [if_neg (by decide)]
        rfl
      refine ⟨⟨h0, hi, hw⟩, rest, ?_, hn, hj⟩
      rw [hr, hff]
      show st.result ++ _ ++ _ = _
      simp

theorem stmts_emits : ∀ ss st, wfStmts ss = true → st.newLines = 0 →
    st.indentation = 0 →
    ((visitStmts ss st).1.newLines = 0 ∧ (visitStmts ss st).1.indentation = 0 ∧
     (visitStmts ss st).1.indentWith = st.indentWith) ∧
    (ss = [] → (visitStmts ss st).1.result = st.result) ∧
    (ss ≠ [] → ∃ mid, (visitStmts ss st).1.result =
        st.result ++ "\n" :: "" :: mid ∧ StGood mid)
| [], st, _h, hnl, hind => by
    refine ⟨⟨?_, ?_, ?_⟩, fun _ => ?_, fun hc => absurd rfl hc⟩ <;>
      simp [visitStmts, hnl, hind]
| s :: ss, st, h, hnl, hind => by
    simp only [visitStmts]
    simp only [wfStmts, Bool.and_eq_true] at h
    obtain ⟨⟨h0, hi, hw⟩, rest, hr, hn, hj⟩ := stmt_emits s st h.1 hnl
    rw [indentText_zero hind, nlRun_one] at hr
    have hi0 : (visitStmt s st).1.indentation = 0 := by rw [hi, hind]
    obtain ⟨⟨ih0, ihi, ihw⟩, ihnil, ihcons⟩ :=
      stmts_emits ss (visitStmt s st).1 h.2 h0 hi0
    refine ⟨⟨ih0, ihi, ?_⟩, ?_, ?_⟩
    · rw [ihw, hw]
    · intro hc
      cases hc
    intro _
    cases ss with
    | nil =>
        refine ⟨rest, ?_, stGood_of_toks hn hj⟩
        rw [ihnil rfl, hr]
    | cons s' ss' =>
        obtain ⟨mid', hmr, hmg⟩ := ihcons (List.cons_ne_nil s' ss')
        refine ⟨rest ++ "\n" :: "" :: mid', ?_, stGood_append_chunk hn hj hmg⟩
        rw [hmr, hr]
        simp

theorem takeWhile_nl_nil {l : List Char} {c : Char} (h : l.head? = some c)
    (hc : c ≠ '\n') : l.takeWhile (fun x => x = '\n') = [] := by
  cases l with
  | nil => cases h
  | cons a t =>
      have : a = c := by
        simpa using h
      subst this
      simp [List.takeWhile, hc]

theorem trailing_one {X : String}
    (h : ∃ c, X.data.getLast? = some c ∧ c ≠ '\n') :
    trailingNlCount (X ++ "\n") = 1 := by
  obtain ⟨c, hc, hne⟩ := h
  simp only [trailingNlCount, String.data_append]
  rw [show (X.data ++ ("\n" : String).data).reverse = '\n' :: X.data.reverse by
    rw [List.reverse_append]
    rfl]
  rw [List.takeWhile_cons]
  rw [if_pos (by decide)]
  have hh : X.data.reverse.head? = some c := by
    rw [List.head?_reverse]
    exact hc
  rw [takeWhile_nl_nil hh hne]
  rfl

theorem headChar_append_nl {X : String} {c : Char} {cs : List Char}
    (h : X.data = c :: cs) : headChar (X ++ "\n") = some c := by
  simp only [headChar, String.data_append, h]
  rfl

theorem finalize_strip (mid : List String) :
    finalize ("\n" :: "" :: mid) = strJoin mid ++ "\n" := by
  simp only [finalize]
  rw [show (("\n" :: "" :: mid) ++ ["\n"]) = "\n" :: "" :: (mid ++ ["\n"]) from rfl]
  rw [show stripLeadingBlank ("\n" :: "" :: (mid ++ ["\n"])) =
      "" :: "" :: (mid ++ ["\n"]) by
    simp only [stripLeadingBlank]
    rw [if_pos (by constructor <;> decide)]]
  show strJoin ("" :: "" :: (mid ++ ["\n"])) = _
  rw [strJoin_cons, strJoin_cons, empty_append_str, empty_append_str,
      strJoin_append, strJoin_cons]
  rw [show strJoin [] = "" from rfl, append_empty_str]

theorem finalize_nostrip {rest : List String} (hn : NoNLs rest) (hne : rest ≠ []) :
    finalize rest = strJoin rest ++ "\n" := by
  cases rest with
  | nil => exact absurd rfl hne
  | cons r t =>
      simp only [finalize]
      rw [show ((r :: t) ++ ["\n"]) = r :: (t ++ ["\n"]) from rfl]
      have hcond : ¬(r ≠ "" ∧ (r.data.all fun c => decide (c = '\n')) = true) := by
        rintro ⟨hne', hall⟩
        have hd : r.data ≠ [] := fun hc => hne' (str_empty_iff.mpr hc)
        cases hdata : r.data with
        | nil => exact hd hdata
        | cons c cs =>
            have hmem : c ∈ r.data := by
              rw [hdata]
              exact List.mem_cons_self c cs
            have : c = '\n' := by
              have := List.all_eq_true.mp hall c (by rw [hdata]; exact List.mem_cons_self c cs)
              simpa using this
            exact hn r (List.mem_cons_self r t) c hmem this
      rw [show stripLeadingBlank (r :: (t ++ ["\n"])) = r :: (t ++ ["\n"]) by
        simp only [stripLeadingBlank]
        rw [if_neg hcond]]
      show strJoin (r :: (t ++ ["\n"])) = _
      rw [strJoin_cons, strJoin_append, strJoin_cons, strJoin_cons]
      rw [show strJoin [] = "" from rfl, append_empty_str, String.append_assoc]

end StatementAssembly

section ClaimC1

/-- C1 (amended): as stated the claim fails on the empty module (see
the counterexample); for every other well-formed input tree the text
returned by `to_source` ends with exactly one trailing newline, and the
leading blank-only first fragment produced by the first statement's
pending-newline flush is stripped, so the returned text never starts
with a newline. -/
theorem c1_output_contract_amended (node : PyNode) (hwf : wfNode node = true)
    (hne : node ≠ PyNode.module []) :
    trailingNlCount (toSource node) = 1 ∧ headChar (toSource node) ≠ some '\n' := by
  cases node with
  | module ss =>
      cases ss with
      | nil => exact absurd rfl hne
      | cons s ss' =>
          obtain ⟨-, -, hcons⟩ := stmts_emits (s :: ss') initState hwf rfl rfl
          obtain ⟨mid, hr, hg⟩ := hcons (List.cons_ne_nil s ss')
          have ht : toSource (PyNode.module (s :: ss')) = strJoin mid ++ "\n" := by
            simp only [toSource, visitNode]
            rw [hr]
            rw [show initState.result ++ "\n" :: "" :: mid = "\n" :: "" :: mid from rfl]
            exact finalize_strip mid
          rw [ht]
          obtain ⟨⟨c₁, cs₁, hh, hc₁⟩, hlast⟩ := hg
          constructor
          · exact trailing_one hlast
          · rw [headChar_append_nl hh]
            intro hcontra
            exact hc₁ (Option.some_injective _ hcontra)
  | expr e =>
      obtain ⟨h0, -, -, -, rest, hrr, hn, hj⟩ := emits_visitPlain e initState hwf
      have hr : (visitPlain e initState).1.result = rest := by
        rw [hrr]
        rfl
      have ht : toSource (PyNode.expr e) = strJoin rest ++ "\n" := by
        simp only [toSource, visitNode]
        rw [hr]
        exact finalize_nostrip hn (strJoin_ne_nil hj)
      rw [ht]
      constructor
      · exact trailing_one (last_of_noNLs hn hj)
      · obtain ⟨c, cs, hh, hc⟩ := head_of_noNLs hn hj
        rw [headChar_append_nl hh]
        intro hcontra
        exact hc (Option.some_injective _ hcontra)

/-- C1 counterexample: `to_source` on an empty module returns the empty
string, which does not end with a trailing newline, refuting the claim
that the returned text always ends with exactly one trailing newline. -/
theorem c1_empty_module_counterexample :
    toSource (PyNode.module []) = "" ∧
    trailingNlCount (toSource (PyNode.module [])) ≠ 1 := by
  constructor <;> decide

/-- C1 witness: the amended theorem applied to the one-statement module
rendering `x`. -/
theorem c1_output_contract_amended_witness :
    trailingNlCount (toSource (mod1 (eName "x"))) = 1 ∧
    headChar (toSource (mod1 (eName "x"))) ≠ some '\n' :=
  c1_output_contract_amended (mod1 (eName "x")) (by decide) (by decide)

end ClaimC1

section IdempotenceFamily

theorem visitKind_pp (pp : Option Nat) (k : EKind) (st : GenState) :
    ∃ k', (visitKind pp k st).2 = PyExpr.mk pp k' := by
  cases k with
  | name id => exact ⟨_, rfl⟩
  | num n => exact ⟨_, rfl⟩
  | strE s => exact ⟨_, rfl⟩
  | joined segs => exact ⟨_, rfl⟩
  | tuple elts => exact ⟨_, rfl⟩
  | setE elts => cases elts <;> exact ⟨_, rfl⟩
  | binop op l r => exact ⟨_, rfl⟩
  | call f args kws => exact ⟨_, rfl⟩
  | genexp elt target iter => exact ⟨_, rfl⟩

theorem commaSep_len : ∀ es first st, eLen (commaSepList es first st).2 = eLen es
| PyExprList.nil, _, _ => rfl
| PyExprList.cons e es, first, st => by
    simp only [commaSepList, eLen]
    rw [commaSep_len es false _]

theorem commaSep_isNil : ∀ es first st, eIsNil (commaSepList es first st).2 = eIsNil es
| PyExprList.nil, _, _ => rfl
| PyExprList.cons _ _, _, _ => rfl

theorem commaSep_cons_shape (e : PyExpr) (es : PyExprList) (first : Bool)
    (st : GenState) :
    ∃ a as, (commaSepList (PyExprList.cons e es) first st).2 = PyExprList.cons a as :=
  ⟨_, _, rfl⟩

theorem argsLoop_len : ∀ p args want st,
    eLen (callArgsLoop p args want st).2.1 = eLen args
| _, PyExprList.nil, _, _ => rfl
| p, PyExprList.cons e es, want, st => by
    simp only [callArgsLoop, eLen]
    rw [argsLoop_len p es true _]

theorem kwsLoop_len : ∀ kws want st,
    kLen (callKwsLoop kws want st).2.1 = kLen kws
| KwList.nil, _, _ => rfl
| KwList.cons a v rest, want, st => by
    simp only [callKwsLoop, kLen]
    rw [kwsLoop_len rest true _]

mutual

theorem idem_visitWith : ∀ v e st,
    visitWith v ((visitWith v e st).2) st = visitWith v e st
| v, PyExpr.mk pp k, st => by
    obtain ⟨k₂, h₂⟩ := visitKind_pp (some v) k st
    show visitWith v (visitKind (some v) k st).2 st = _
    rw [h₂]
    show visitKind (some v) k₂ st = _
    have h := idem_visitKind (some v) k st
    rw [show kindOf (visitKind (some v) k st).2 = k₂ by rw [h₂]; rfl] at h
    exact h

theorem idem_visitPlain : ∀ e st,
    visitPlain ((visitPlain e st).2) st = visitPlain e st
| PyExpr.mk pp k, st => by
    obtain ⟨k₂, h₂⟩ := visitKind_pp pp k st
    show visitPlain (visitKind pp k st).2 st = _
    rw [h₂]
    show visitKind pp k₂ st = _
    have h := idem_visitKind pp k st
    rw [show kindOf (visitKind pp k st).2 = k₂ by rw [h₂]; rfl] at h
    exact h

theorem idem_visitKind : ∀ pp k st,
    visitKind pp (kindOf (visitKind pp k st).2) st = visitKind pp k st
| pp, EKind.name id, st => rfl
| pp, EKind.num n, st => rfl
| pp, EKind.strE s, st => rfl
| pp, EKind.joined segs, st => by
    show visitKind pp (EKind.joined (visitSegs segs (writeStr st "")).2) st = _
    simp only [visitKind]
    rw [idem_visitSegs segs (writeStr st "")]
| pp, EKind.tuple elts, st => by
    show visitKind pp
      (EKind.tuple (commaSepList elts true (writeStr st "(")).2) st = _
    simp only [visitKind]
    rw [idem_commaSep elts true (writeStr st "("),
        commaSep_len elts true (writeStr st "("),
        commaSep_isNil elts true (writeStr st "(")]
| pp, EKind.setE elts, st => by
    cases elts with
    | nil => rfl
    | cons e es =>
        obtain ⟨a, as, hsh⟩ := commaSep_cons_shape e es true (writeStr st "\x7b")
        show visitKind pp
          (EKind.setE (commaSepList (PyExprList.cons e es) true (writeStr st "\x7b")).2) st = _
        rw [hsh]
        simp only [visitKind]
        rw [← hsh, idem_commaSep (PyExprList.cons e es) true (writeStr st "\x7b")]
| pp, EKind.binop op l r, st => by
    show visitKind pp (EKind.binop op
      (visitWith (binOpLeftPrec op) l (writeStr st "(")).2
      (visitWith (binOpRightPrec op) r
        (writeStr (visitWith (binOpLeftPrec op) l (writeStr st "(")).1
          (" " ++ opSym op ++ " "))).2) st = _
    simp only [visitKind]
    rw [idem_visitWith (binOpLeftPrec op) l (writeStr st "("),
        idem_visitWith (binOpRightPrec op) r
          (writeStr (visitWith (binOpLeftPrec op) l (writeStr st "(")).1
            (" " ++ opSym op ++ " "))]
| pp, EKind.call f args kws, st => by
    show visitKind pp (EKind.call
      (visitPlain f st).2
      (callArgsLoop (callArgPrec (eLen args + kLen kws)) args false
        (writeStr (visitPlain f st).1 "(")).2.1
      (callKwsLoop kws
        (callArgsLoop (callArgPrec (eLen args + kLen kws)) args false
          (writeStr (visitPlain f st).1 "(")).2.2
        (callArgsLoop (callArgPrec (eLen args + kLen kws)) args false
          (writeStr (visitPlain f st).1 "(")).1).2.1) st = _
    simp only [visitKind]
    rw [argsLoop_len, kwsLoop_len, idem_visitPlain f st,
        idem_argsLoop (callArgPrec (eLen args + kLen kws)) args false
          (writeStr (visitPlain f st).1 "("),
        idem_kwsLoop kws
          (callArgsLoop (callArgPrec (eLen args + kLen kws)) args false
            (writeStr (visitPlain f st).1 "(")).2.2
          (callArgsLoop (callArgPrec (eLen args + kLen kws)) args false
            (writeStr (visitPlain f st).1 "(")).1]
| pp, EKind.genexp elt target iter, st => by
    show visitKind pp (EKind.genexp
      (visitWith Prec.Comma elt (writeStr st "(")).2
      (visitWith Prec.comprehension_target target
        (writeStr (visitWith Prec.Comma elt (writeStr st "(")).1 " for ")).2
      (visitWith Prec.comprehension iter
        (writeStr (visitWith Prec.comprehension_target target
          (writeStr (visitWith Prec.Comma elt (writeStr st "(")).1 " for ")).1 " in ")).2) st = _
    simp only [visitKind]
    rw [idem_visitWith Prec.Comma elt (writeStr st "("),
        idem_visitWith Prec.comprehension_target target
          (writeStr (visitWith Prec.Comma elt (writeStr st "(")).1 " for "),
        idem_visitWith Prec.comprehension iter
          (writeStr (visitWith Prec.comprehension_target target
            (writeStr (visitWith Prec.Comma elt (writeStr st "(")).1 " for ")).1 " in ")]

theorem idem_commaSep : ∀ es first st,
    commaSepList ((commaSepList es first st).2) first st = commaSepList es first st
| PyExprList.nil, _, _ => rfl
| PyExprList.cons e es, first, st => by
    show commaSepList (PyExprList.cons
      (visitWith Prec.Comma e (writeStr st (if first then "" else ", "))).2
      (commaSepList es false
        (visitWith Prec.Comma e (writeStr st (if first then "" else ", "))).1).2) first st = _
    simp only [commaSepList]
    rw [idem_visitWith Prec.Comma e (writeStr st (if first then "" else ", ")),
        idem_commaSep es false
          (visitWith Prec.Comma e (writeStr st (if first then "" else ", "))).1]

theorem idem_argsLoop : ∀ p args want st,
    callArgsLoop p ((callArgsLoop p args want st).2.1) want st =
      callArgsLoop p args want st
| _, PyExprList.nil, _, _ => rfl
| p, PyExprList.cons e es, want, st => by
    show callArgsLoop p (PyExprList.cons
      (visitWith p e (if want then writeStr st ", " else st)).2
      (callArgsLoop p es true
        (visitWith p e (if want then writeStr st ", " else st)).1).2.1) want st = _
    simp only [callArgsLoop]
    rw [idem_visitWith p e (if want then writeStr st ", " else st),
        idem_argsLoop p es true
          (visitWith p e (if want then writeStr st ", " else st)).1]

theorem idem_kwsLoop : ∀ kws want st,
    callKwsLoop ((callKwsLoop kws want st).2.1) want st = callKwsLoop kws want st
| KwList.nil, _, _ => rfl
| KwList.cons argName v rest, want, st => by
    show callKwsLoop (KwList.cons argName
      (visitWith Prec.Comma v
        (writeStr (writeStr (if want then writeStr st ", " else st) (argName.getD ""))
          (if argName.getD "" = "" then "**" else "="))).2
      (callKwsLoop rest true
        (visitWith Prec.Comma v
          (writeStr (writeStr (if want then writeStr st ", " else st) (argName.getD ""))
            (if argName.getD "" = "" then "**" else "="))).1).2.1) want st = _
    simp only [callKwsLoop]
    rw [idem_visitWith Prec.Comma v
          (writeStr (writeStr (if want then writeStr st ", " else st) (argName.getD ""))
            (if argName.getD "" = "" then "**" else "=")),
        idem_kwsLoop rest true
          (visitWith Prec.Comma v
            (writeStr (writeStr (if want then writeStr st ", " else st) (argName.getD ""))
              (if argName.getD "" = "" then "**" else "="))).1]

theorem idem_visitSegs : ∀ segs st,
    visitSegs ((visitSegs segs st).2) st = visitSegs segs st
| SegList.nil, _ => rfl
| SegList.cons s rest, st => by
    show visitSegs (SegList.cons (visitSeg s st).2
      (visitSegs rest (visitSeg s st).1).2) st = _
    simp only [visitSegs]
    rw [idem_visitSeg s st, idem_visitSegs rest (visitSeg s st).1]

theorem idem_visitSeg : ∀ s st, visitSeg ((visitSeg s st).2) st = visitSeg s st
| Seg.strSeg s, st => rfl
| Seg.constSeg s, st => rfl
| Seg.fmtVal exprText v conv, st => by
    match exprText with
    | some t => rfl
    | none =>
        show visitSeg (Seg.fmtVal none
          (visitWith Prec.FormattedValue v (writeStr st "\x7b")).2 conv) st = _
        simp only [visitSeg]
        rw [idem_visitWith Prec.FormattedValue v (writeStr st "\x7b")]
| Seg.fmtValSpec exprText v conv spec, st => by
    match exprText with
    | some t =>
        show visitSeg (Seg.fmtValSpec (some t) v conv
          (visitSegs spec
            (writeStr (match conv with
              | some c => writeStr (writeStr (writeStr st "\x7b") t) ("!" ++ String.mk [c])
              | none => writeStr (writeStr st "\x7b") t) ":")).2) st = _
        simp only [visitSeg]
        rw [idem_visitSegs spec
          (writeStr (match conv with
            | some c => writeStr (writeStr (writeStr st "\x7b") t) ("!" ++ String.mk [c])
            | none => writeStr (writeStr st "\x7b") t) ":")]
    | none =>
        show visitSeg (Seg.fmtValSpec none
          (visitWith Prec.FormattedValue v (writeStr st "\x7b")).2 conv
          (visitSegs spec
            (writeStr (match conv with
              | some c => writeStr (visitWith Prec.FormattedValue v (writeStr st "\x7b")).1
                  ("!" ++ String.mk [c])
              | none => (visitWith Prec.FormattedValue v (writeStr st "\x7b")).1) ":")).2) st = _
        simp only [visitSeg]
        rw [idem_visitWith Prec.FormattedValue v (writeStr st "\x7b"),
            idem_visitSegs spec
              (writeStr (match conv with
                | some c => writeStr (visitWith Prec.FormattedValue v (writeStr st "\x7b")).1
                    ("!" ++ String.mk [c])
                | none => (visitWith Prec.FormattedValue v (writeStr st "\x7b")).1) ":")]

end

theorem idem_visitStmt (s : PyStmt) (st : GenState) :
    visitStmt ((visitStmt s st).2) st = visitStmt s st := by
  cases s with
  | exprStmt e =>
      show visitStmt (PyStmt.exprStmt
        (visitWith Prec.Expr e (newlineReq st 0)).2) st = _
      simp only [visitStmt]
      rw [idem_visitWith Prec.Expr e (newlineReq st 0)]

theorem idem_visitStmts : ∀ ss st,
    visitStmts ((visitStmts ss st).2) st = visitStmts ss st
| [], _ => rfl
| s :: ss, st => by
    show visitStmts ((visitStmt s st).2 ::
      (visitStmts ss (visitStmt s st).1).2) st = _
    simp only [visitStmts]
    rw [idem_visitStmt s st, idem_visitStmts ss (visitStmt s st).1]

theorem idem_visitNode (node : PyNode) (st : GenState) :
    visitNode ((visitNode node st).2) st = visitNode node st := by
  cases node with
  | module ss =>
      show visitNode (PyNode.module (visitStmts ss st).2) st = _
      simp only [visitNode]
      rw [idem_visitStmts ss st]
  | expr e =>
      show visitNode (PyNode.expr (visitPlain e st).2) st = _
      simp only [visitNode]
      rw [idem_visitPlain e st]

end IdempotenceFamily

section MoreHelpers

mutual

theorem visitKind_newLines0 : ∀ pp k st, (visitKind pp k st).1.newLines = 0
| _, EKind.name id, st => writeStr_newLines st id
| _, EKind.num n, st => by
    simp only [visitKind]
    split <;> simp [clearSlot, appendFrag, writeStr_newLines]
| _, EKind.strE s, st => by
    simp only [visitKind, handleStr]
    split <;> simp [writeStr_newLines]
| _, EKind.joined segs, st => by
    simp only [visitKind]
    split <;> simp [writeStr_newLines]
| _, EKind.tuple elts, st => by
    simp only [visitKind]
    split <;> simp [clearSlot, appendFrag, writeStr_newLines]
| _, EKind.setE elts, st => by
    cases elts <;> simp [visitKind, writeStr_newLines, appendFrag]
| _, EKind.binop op l r, st => by
    simp only [visitKind]
    split <;> simp only [clearSlot, appendFrag] <;>
      exact visitWith_newLines0 (binOpRightPrec op) r _
| _, EKind.call f args kws, st => by
    simp only [visitKind]
    exact writeStr_newLines _ _
| _, EKind.genexp elt target iter, st => by
    simp only [visitKind]
    split <;> simp only [clearSlot, appendFrag] <;>
      exact visitWith_newLines0 Prec.comprehension iter _

theorem visitWith_newLines0 : ∀ v e st, (visitWith v e st).1.newLines = 0
| v, PyExpr.mk _ k, st => visitKind_newLines0 (some v) k st

end

theorem commaSep_cons_newLines0 : ∀ e es first st,
    (commaSepList (PyExprList.cons e es) first st).1.newLines = 0
| _, PyExprList.nil, _, _ => by
    simp only [commaSepList]
    exact visitWith_newLines0 _ _ _
| _, PyExprList.cons e' es', _, _ => by
    simp only [commaSepList]
    exact commaSep_cons_newLines0 e' es' false _

theorem extFrom_newlineReq (st : GenState) (x : Nat) : ExtFrom st (newlineReq st x) := by
  refine ⟨⟨[], by simp [newlineReq]⟩, ⟨[], by simp [newlineReq], ?_⟩⟩
  intro e he
  cases he

theorem ext_visitStmt (s : PyStmt) (st : GenState) : ExtFrom st (visitStmt s st).1 := by
  cases s with
  | exprStmt e =>
      simp only [visitStmt]
      exact extFrom_trans (extFrom_newlineReq st 0) (ext_visitWith Prec.Expr e _)

theorem ext_visitStmts : ∀ ss st, ExtFrom st (visitStmts ss st).1
| [], st => by
    simp only [visitStmts]
    exact extFrom_refl st
| s :: ss, st => by
    simp only [visitStmts]
    exact extFrom_trans (ext_visitStmt s st) (ext_visitStmts ss _)

theorem writeStr_open_result {st : GenState} (h : st.newLines = 0) (tok : String)
    (htok : tok ≠ "") : (writeStr st tok).result = st.result ++ [tok] := by
  rw [writeStr_nl0_result h]
  simp [htok]

theorem writeStr_open_len {st : GenState} (h : st.newLines = 0) (tok : String)
    (htok : tok ≠ "") :
    (writeStr st tok).result.length - 1 = st.result.length := by
  rw [writeStr_open_result h tok htok]
  simp

end MoreHelpers

section ClaimC5

/-- C5 counterexample: generating source for the call `f(x for x in y)`
annotates its generator-expression argument with the `call_one_arg`
precedence in place; extracting that same argument node afterwards and
generating source for it alone yields `x for x in y` (the stale
annotation forces the delimiter discard), while generating the fresh
generator expression yields `(x for x in y)` — so the annotation
written during one top-level generation does influence a separate later
generation, refuting the claim's two-run equality. -/
theorem c5_stale_annotation_counterexample :
    toSource (PyNode.expr (firstArgOf (genTree (PyNode.expr (eCall (eName "f") [eGen]))))) ≠
      toSource (PyNode.expr eGen) ∧
    toSource (PyNode.expr (firstArgOf (genTree (PyNode.expr (eCall (eName "f") [eGen]))))) =
      "x for x in y\n" ∧
    toSource (PyNode.expr eGen) = "(x for x in y)\n" := by
  refine ⟨?_, ?_, ?_⟩ <;> decide

/-- C5 (amended): generation is a deterministic function of the tree
including its annotations, and a node's own (root) annotation is never
written during its own generation, so re-generating the very tree that
was just generated — annotations and all — yields the same text; but,
as the counterexample shows, a subnode extracted from a larger
generated tree keeps the annotation written onto it and can render
differently than a fresh copy. -/
theorem c5_regeneration_idempotent (node : PyNode) :
    toSource (genTree node) = toSource node := by
  simp only [toSource, genTree]
  rw [idem_visitNode]

end ClaimC5

section ClaimC4

/-- C4 counterexample: rendering a joined string records a `deleteFrom`
journal event (the `del result[index:]` splice of
`_handle_string_constant`), so the output buffer is not only appended
to and clear-of-opening-slot edited: fragments are also deleted. -/
theorem c4_splice_counterexample :
    ((genJournal (mod1 (PyExpr.mk none (EKind.joined
        (SegList.cons (Seg.strSeg "a") SegList.nil))))).all
      (fun e => match e with
       | BufEvent.append _ => true
       | BufEvent.clearOpen _ => true
       | BufEvent.deleteFrom _ => false)) = false ∧
    BufEvent.deleteFrom 2 ∈ genJournal (mod1 (PyExpr.mk none (EKind.joined
        (SegList.cons (Seg.strSeg "a") SegList.nil)))) := by
  constructor <;> decide

/-- C4 (amended): rendering only appends, clears the opening slot of a
resolving delimiter scope, or splices out the joined-literal scratch
fragments; every fragment that existed before a rendering operation
began is untouched: the prior buffer is a prefix of the resulting
buffer and every retroactive clear or splice recorded in the journal
targets an index at or beyond the operation's starting buffer length. -/
theorem c4_buffer_extension_amended (node : PyNode) (st : GenState) :
    ExtFrom st (visitNode node st).1 := by
  cases node with
  | module ss =>
      simp only [visitNode]
      exact ext_visitStmts ss st
  | expr e =>
      simp only [visitNode]
      exact ext_visitPlain e st

end ClaimC4

section ClaimC2

/-- C2 counterexample: the NaN component is rendered as
`(1e1000-1e1000)` with no spaces around the minus sign, not as the
claimed `(1e1000 - 1e1000)`. -/
theorem c2_nan_spacing_counterexample :
    partFmt FloatPart.nan false = "(1e1000-1e1000)" ∧
    partFmt FloatPart.nan false ≠ "(1e1000 - 1e1000)" := by
  constructor <;> decide

/-- C2 (amended): the numeric part-formatter renders positive infinity
as `1e1000`, negative infinity as `-1e1000`, and NaN as
`(1e1000-1e1000)` (no spaces), with a `j` suffix on each token for an
imaginary component, and whole constants render accordingly. -/
theorem c2_special_numeric_amended :
    partFmt FloatPart.inf false = "1e1000" ∧
    partFmt FloatPart.neginf false = "-1e1000" ∧
    partFmt FloatPart.nan false = "(1e1000-1e1000)" ∧
    partFmt FloatPart.inf true = "1e1000j" ∧
    partFmt FloatPart.neginf true = "-1e1000j" ∧
    partFmt FloatPart.nan true = "(1e1000j-1e1000j)" ∧
    toSource (mod1 (PyExpr.mk none (EKind.num (PyNum.real FloatPart.inf)))) =
      "1e1000\n" ∧
    toSource (mod1 (PyExpr.mk none (EKind.num (PyNum.real FloatPart.neginf)))) =
      "-1e1000\n" ∧
    toSource (mod1 (PyExpr.mk none (EKind.num (PyNum.real FloatPart.nan)))) =
      "(1e1000-1e1000)\n" := by
  refine ⟨?_, ?_, ?_, ?_, ?_, ?_, ?_, ?_, ?_⟩ <;> decide

end ClaimC2

section ClaimC3

/-- C3: `visit_BinOp` propagates the operator's own precedence to the
left child and precedence+1 to the right child for every
non-exponentiation operator, while exponentiation sets the left child
to `Pow + 1` and the right child to the `PowRHS` rank; consequently
`2**3**4` renders without parentheses and `(2**3)**4` keeps them. -/
theorem c3_binop_precedence :
    (∀ op : BinOpKind, op ≠ BinOpKind.pow →
      binOpLeftPrec op = opPrec op ∧ binOpRightPrec op = opPrec op + 1) ∧
    (binOpLeftPrec BinOpKind.pow = Prec.Pow + 1 ∧
     binOpRightPrec BinOpKind.pow = Prec.PowRHS) ∧
    toSource (mod1 (eBin BinOpKind.pow (eNum "2")
      (eBin BinOpKind.pow (eNum "3") (eNum "4")))) = "2 ** 3 ** 4\n" ∧
    toSource (mod1 (eBin BinOpKind.pow
      (eBin BinOpKind.pow (eNum "2") (eNum "3")) (eNum "4"))) = "(2 ** 3) ** 4\n" := by
  refine ⟨?_, by decide, by decide, by decide⟩
  intro op hop
  cases op with
  | pow => exact absurd rfl hop
  | add => exact ⟨by decide, by decide⟩
  | sub => exact ⟨by decide, by decide⟩
  | mult => exact ⟨by decide, by decide⟩

/-- C3 witness: the non-exponentiation clause applied to addition. -/
theorem c3_binop_precedence_witness :
    binOpLeftPrec BinOpKind.add = opPrec BinOpKind.add ∧
    binOpRightPrec BinOpKind.add = opPrec BinOpKind.add + 1 :=
  c3_binop_precedence.1 BinOpKind.add (by decide)

end ClaimC3

section ClaimC9

/-- C9: newline requests coalesce to the maximum, not the sum: from a
flushed state, `newline(extra=a)` then `newline(extra=b)` leaves
`max (1+a) (1+b)` pending newlines, and the next nonempty token is
preceded by exactly that newline run (plus the indentation), after
which the pending count is reset to zero. -/
theorem c9_newline_coalescing (a b : Nat) (st : GenState)
    (h : st.newLines = 0) :
    (newlineReq (newlineReq st a) b).newLines = max (1 + a) (1 + b) ∧
    ∀ tok, tok ≠ "" →
      (writeStr (newlineReq (newlineReq st a) b) tok).result =
        st.result ++ [nlRun (max (1 + a) (1 + b)), indentText st, tok] ∧
      (writeStr (newlineReq (newlineReq st a) b) tok).newLines = 0 := by
  have hmax : (newlineReq (newlineReq st a) b).newLines = max (1 + a) (1 + b) := by
    simp [newlineReq, h]
  refine ⟨hmax, fun tok htok => ⟨?_, writeStr_newLines _ _⟩⟩
  rw [writeStr_result]
  have hne : (newlineReq (newlineReq st a) b).newLines ≠ 0 := by
    rw [hmax]
    omega
  simp only [flushFrags, if_neg hne, hmax]
  rw [show (newlineReq (newlineReq st a) b).result = st.result from rfl]
  rw [show indentText (newlineReq (newlineReq st a) b) = indentText st from rfl]
  simp [htok]

/-- C9 witness: the coalescing theorem at `a = 0`, `b = 2`, writing the
token `x` from the fresh state. -/
theorem c9_newline_coalescing_witness :
    (newlineReq (newlineReq initState 0) 2).newLines = max 1 3 ∧
    (writeStr (newlineReq (newlineReq initState 0) 2) "x").result =
      initState.result ++ [nlRun (max 1 3), indentText initState, "x"] ∧
    (writeStr (newlineReq (newlineReq initState 0) 2) "x").newLines = 0 :=
  ⟨(c9_newline_coalescing 0 2 initState rfl).1,
   (c9_newline_coalescing 0 2 initState rfl).2 "x" (by decide)⟩

end ClaimC9

section DelimitShapes

theorem clear_open_shape {st b : GenState} (h : st.newLines = 0) {tok : String}
    (htok : tok ≠ "") {t : List String}
    (hb : b.result = (writeStr st tok).result ++ t) :
    (clearSlot b ((writeStr st tok).result.length - 1)).result =
      st.result ++ "" :: t := by
  have hlen := writeStr_open_len h tok htok
  show b.result.set _ "" = _
  rw [hb, hlen, writeStr_open_result h tok htok, List.append_assoc,
      set_append_ge _ _ _ _ (le_refl _)]
  simp [List.set]

theorem append_close_shape {st b : GenState} (h : st.newLines = 0) {tok : String}
    (htok : tok ≠ "") {t : List String}
    (hb : b.result = (writeStr st tok).result ++ t) (cl : String) :
    (appendFrag b cl).result = st.result ++ tok :: (t ++ [cl]) := by
  rw [appendFrag_result, hb, writeStr_open_result h tok htok]
  simp

end DelimitShapes

section ClaimC6

/-- C6: an empty tuple never discards its enclosing parentheses — it
renders as `()` whatever the annotated precedence — and a one-element
tuple always receives a trailing comma after its single element,
whether its parentheses are kept (`(1,)`) or discarded (`1,`). -/
theorem c6_tuple_edge_cases :
    (∀ pp st, st.newLines = 0 →
      (visitKind pp (EKind.tuple PyExprList.nil) st).1.result =
        st.result ++ ["(", ")"]) ∧
    (∀ pp e st, st.newLines = 0 → ∃ mid,
      (visitKind pp (EKind.tuple (PyExprList.cons e PyExprList.nil)) st).1.result =
          st.result ++ "(" :: (mid ++ [","] ++ [")"]) ∨
      (visitKind pp (EKind.tuple (PyExprList.cons e PyExprList.nil)) st).1.result =
          st.result ++ "" :: (mid ++ [","])) ∧
    toSource (mod1 (eTup [])) = "()\n" ∧
    toSource (PyNode.expr (eTup [eNum "1"])) = "(1,)\n" ∧
    toSource (mod1 (eTup [eNum "1"])) = "1,\n" := by
  refine ⟨?_, ?_, by decide, by decide, by decide⟩
  · intro pp st h
    simp only [visitKind, commaSepList, eLen, eIsNil, Bool.not_true, Bool.and_false]
    rw [if_neg (by simp)]
    rw [show (if (0 : Nat) = 1 then ("," : String) else "") = "" by decide]
    rw [writeStr_empty_of_nl0 (writeStr_newLines st "(")]
    rw [appendFrag_result, writeStr_nl0_result h]
    simp
  · intro pp e st h
    obtain ⟨⟨t, ht⟩, -⟩ := ext_visitWith Prec.Comma e (writeStr st "(")
    refine ⟨t, ?_⟩
    simp only [visitKind, commaSepList, eLen, eIsNil, if_true, Bool.not_false,
      Bool.and_true]
    rw [writeStr_empty_of_nl0 (writeStr_newLines st "(")]
    have hb : (writeStr (visitWith Prec.Comma e (writeStr st "(")).1 ",").result =
        (writeStr st "(").result ++ (t ++ [","]) := by
      rw [writeStr_nl0_result (visitWith_newLines0 Prec.Comma e (writeStr st "(")), ht]
      simp
    split
    · right
      rw [clear_open_shape h (by decide) hb]
    · left
      rw [append_close_shape h (show "(" ≠ "" by decide) hb ")"]

/-- C6 witness: the empty-tuple clause and the one-element clause at
the fresh state, with the single element `1`. -/
theorem c6_tuple_edge_cases_witness :
    (visitKind none (EKind.tuple PyExprList.nil) initState).1.result =
      initState.result ++ ["(", ")"] ∧
    (∃ mid,
      (visitKind none (EKind.tuple (PyExprList.cons (eNum "1") PyExprList.nil))
          initState).1.result = initState.result ++ "(" :: (mid ++ [","] ++ [")"]) ∨
      (visitKind none (EKind.tuple (PyExprList.cons (eNum "1") PyExprList.nil))
          initState).1.result = initState.result ++ "" :: (mid ++ [","])) :=
  ⟨c6_tuple_edge_cases.1 none initState rfl,
   c6_tuple_edge_cases.2.1 none (eNum "1") initState rfl⟩

end ClaimC6

section ClaimC7

/-- C7: brace escaping inside a joined literal depends on the node
shape carrying the literal text, contradicting the claim that every
literal-text segment is escaped.  A Str-shaped segment has its braces
doubled (`{` renders as `f'{{'`), but the `ast.Constant` branch of
`_handle_string_constant` (code_gen.py line 615) writes the carried
text verbatim, so a Constant-shaped `{` reaches the assembled template
undoubled and the emitted literal is the malformed `f'{'` — even though
the adjacent branch's comment says the braces are doubled to escape
them. -/
theorem c7_constant_segment_brace_bug :
    toSource (mod1 (PyExpr.mk none (EKind.joined
      (SegList.cons (Seg.strSeg "\x7b") SegList.nil)))) = "f'\x7b\x7b'\n" ∧
    toSource (mod1 (PyExpr.mk none (EKind.joined
      (SegList.cons (Seg.constSeg "\x7b") SegList.nil)))) = "f'\x7b'\n" ∧
    doubleBraces "\x7b" = "\x7b\x7b" := by
  refine ⟨?_, ?_, ?_⟩ <;> decide

end ClaimC7

section ClaimC8

/-- C8: a call with exactly one argument in total annotates it with the
`call_one_arg` rank and a generator expression annotated with that rank
force-discards its own parentheses (its opening slot is cleared), so
`f(x for x in y)` reuses the call's parentheses; with more than one
argument the arguments get the `Comma` rank and the generator
expression keeps its own parentheses. -/
theorem c8_genexp_sole_call_arg :
    (callArgPrec 1 = Prec.call_one_arg ∧
     ∀ n, n > 1 → callArgPrec n = Prec.Comma) ∧
    (∀ elt tgt iter st, st.newLines = 0 → ∃ mid,
      (visitKind (some Prec.call_one_arg) (EKind.genexp elt tgt iter) st).1.result =
        st.result ++ "" :: mid) ∧
    (∀ elt tgt iter st, st.newLines = 0 → ∃ mid,
      (visitKind (some Prec.Comma) (EKind.genexp elt tgt iter) st).1.result =
        st.result ++ "(" :: (mid ++ [")"])) ∧
    toSource (mod1 (eCall (eName "f") [eGen])) = "f(x for x in y)\n" ∧
    toSource (mod1 (eCall (eName "f") [eGen, eName "z"])) = "f((x for x in y), z)\n" := by
  refine ⟨⟨by decide, ?_⟩, ?_, ?_, by decide, by decide⟩
  · intro n hn
    simp [callArgPrec, hn]
  · intro elt tgt iter st h
    have hext : ExtFrom (writeStr st "(")
        (visitWith Prec.comprehension iter
          (writeStr (visitWith Prec.comprehension_target tgt
            (writeStr (visitWith Prec.Comma elt (writeStr st "(")).1 " for ")).1
            " in ")).1 := by
      have h2 := ext_visitWith Prec.Comma elt (writeStr st "(")
      have h3 := extFrom_trans h2 (extFrom_write _ " for ")
      have h4 := extFrom_trans h3 (ext_visitWith Prec.comprehension_target tgt _)
      have h5 := extFrom_trans h4 (extFrom_write _ " in ")
      exact extFrom_trans h5 (ext_visitWith Prec.comprehension iter _)
    obtain ⟨⟨t, ht⟩, -⟩ := hext
    refine ⟨t, ?_⟩
    simp only [visitKind]
    rw [if_pos (by decide)]
    rw [clear_open_shape h (by decide) ht]
  · intro elt tgt iter st h
    have hext : ExtFrom (writeStr st "(")
        (visitWith Prec.comprehension iter
          (writeStr (visitWith Prec.comprehension_target tgt
            (writeStr (visitWith Prec.Comma elt (writeStr st "(")).1 " for ")).1
            " in ")).1 := by
      have h2 := ext_visitWith Prec.Comma elt (writeStr st "(")
      have h3 := extFrom_trans h2 (extFrom_write _ " for ")
      have h4 := extFrom_trans h3 (ext_visitWith Prec.comprehension_target tgt _)
      have h5 := extFrom_trans h4 (extFrom_write _ " in ")
      exact extFrom_trans h5 (ext_visitWith Prec.comprehension iter _)
    obtain ⟨⟨t, ht⟩, -⟩ := hext
    refine ⟨t, ?_⟩
    simp only [visitKind]
    rw [if_neg (by decide)]
    exact append_close_shape h (by decide) ht ")"

/-- C8 witness: the force-discard and keep clauses at the fresh state
with name-shaped parts, plus the numeric-argument clause at 2. -/
theorem c8_genexp_sole_call_arg_witness :
    callArgPrec 2 = Prec.Comma ∧
    (∃ mid, (visitKind (some Prec.call_one_arg)
        (EKind.genexp (eName "x") (eName "x") (eName "y")) initState).1.result =
      initState.result ++ "" :: mid) ∧
    (∃ mid, (visitKind (some Prec.Comma)
        (EKind.genexp (eName "x") (eName "x") (eName "y")) initState).1.result =
      initState.result ++ "(" :: (mid ++ [")"])) :=
  ⟨c8_genexp_sole_call_arg.1.2 2 (by decide),
   c8_genexp_sole_call_arg.2.1 (eName "x") (eName "x") (eName "y") initState rfl,
   c8_genexp_sole_call_arg.2.2.1 (eName "x") (eName "x") (eName "y") initState rfl⟩

end ClaimC8

section ClaimC10

/-- C10: an empty set node emits exactly `{1}.__class__()` (neither
`{}`, which would be a dictionary, nor `set()`), while a nonempty set
node renders as its comma-separated elements enclosed in braces. -/
theorem c10_set_rendering :
    (∀ pp st, st.newLines = 0 →
      (visitKind pp (EKind.setE PyExprList.nil) st).1.result =
        st.result ++ ["\x7b1\x7d.__class__()"]) ∧
    (∀ pp e es st, st.newLines = 0 → ∃ mid,
      (visitKind pp (EKind.setE (PyExprList.cons e es)) st).1.result =
        st.result ++ "\x7b" :: (mid ++ ["\x7d"])) ∧
    toSource (mod1 (eSet [eNum "1", eNum "2"])) = "\x7b1, 2\x7d\n" ∧
    toSource (mod1 (eSet [])) = "\x7b1\x7d.__class__()\n" := by
  refine ⟨?_, ?_, by decide, by decide⟩
  · intro pp st h
    simp only [visitKind]
    rw [writeStr_nl0_result h]
    simp
  · intro pp e es st h
    obtain ⟨⟨t, ht⟩, -⟩ := ext_commaSep (PyExprList.cons e es) true (writeStr st "\x7b")
    refine ⟨t, ?_⟩
    simp only [visitKind]
    have hb : (writeStr (commaSepList (PyExprList.cons e es) true
        (writeStr st "\x7b")).1 "").result =
        (writeStr st "\x7b").result ++ t := by
      rw [writeStr_empty_of_nl0 (commaSep_cons_newLines0 e es true _)]
      exact ht
    exact append_close_shape h (by decide) hb "\x7d"

/-- C10 witness: the empty-set clause and the nonempty clause with
elements `1` and `2` at the fresh state. -/
theorem c10_set_rendering_witness :
    (visitKind none (EKind.setE PyExprList.nil) initState).1.result =
      initState.result ++ ["\x7b1\x7d.__class__()"] ∧
    (∃ mid, (visitKind none (EKind.setE
        (PyExprList.cons (eNum "1") (PyExprList.cons (eNum "2") PyExprList.nil)))
        initState).1.result = initState.result ++ "\x7b" :: (mid ++ ["\x7d"])) :=
  ⟨c10_set_rendering.1 none initState rfl,
   c10_set_rendering.2.1 none (eNum "1") (PyExprList.cons (eNum "2") PyExprList.nil)
     initState rfl⟩

end ClaimC10
